import Mathlib

/-
Verification of the AUC Archive chatbot core (auc_archive_chatbot.py):
intent resolution (`process_query`), collection-name resolution
(`find_collection_alias`), result formatting (`format_search_results`,
`format_item_details`) and the search-all orchestration
(`search_all_collections`).

Modelling conventions:
* Strings are Lean `String`s; character-level work happens on `.data`.
* Python `str.lower` is modelled by `Char.toLower` (ASCII case folding;
  the chatbot's keywords and commands are ASCII).
* Python `str.strip` / the regex class `\s` use the ASCII whitespace set
  space, tab, newline, carriage return, vertical tab, form feed.
* The three regular expressions used by `process_query` are embedded as
  explicit backtracking matchers with Python `re.search` semantics:
  leftmost match wins, `\s+`/`(.+)` are greedy, `(.+?)` is lazy, and `.`
  matches any character except newline.
* Python dicts with string keys are modelled as association lists in
  insertion order; `dict.get` is first-match lookup with a default.
-/

namespace AUCArchive

/-- Python's ASCII whitespace class, used both by `str.strip()` and by the
regex class `\s`. -/
def isSpaceChar (c : Char) : Bool :=
  c = ' ' || c = '\t' || c = '\n' || c = '\r' || c = '\x0b' || c = '\x0c'

/-- Characters matched by the regex `.` (anything except newline). -/
def dotChar (c : Char) : Bool := c != '\n'

/-- Characters matched by the regex `\w` (ASCII letters, digits, underscore). -/
def wordChar (c : Char) : Bool := c.isAlphanum || c = '_'

/-- Python `str.lower()` on the character list (ASCII case folding). -/
def pyLowerList (l : List Char) : List Char := l.map Char.toLower

/-- Python `str.lower()`. -/
def pyLower (s : String) : String := ⟨pyLowerList s.data⟩

/-- Drop leading whitespace. -/
def stripLeft (l : List Char) : List Char := l.dropWhile isSpaceChar

/-- Drop trailing whitespace. -/
def stripRight (l : List Char) : List Char := (l.reverse.dropWhile isSpaceChar).reverse

/-- Python `str.strip()` on the character list. -/
def pyStripList (l : List Char) : List Char := stripRight (stripLeft l)

/-- Python `str.strip()`. -/
def pyStrip (s : String) : String := ⟨pyStripList s.data⟩

/-- Python `str.lstrip('/')`: drop every leading slash. -/
def pyLstripSlash (s : String) : String := ⟨s.data.dropWhile (· = '/')⟩

/-- Python's substring test `needle in hay` (contiguous occurrence):
the needle is a prefix of some suffix of the haystack. -/
def listContainsSub (hay needle : List Char) : Bool :=
  needle.isPrefixOf hay ||
    match hay with
    | [] => false
    | _ :: t => listContainsSub t needle

/-- Python's substring test `needle in hay` on strings. -/
def pyContains (hay needle : String) : Bool := listContainsSub hay.data needle.data

/-- Python `hay.startswith(pre)`. -/
def pyStartsWith (s pre : String) : Bool := pre.data.isPrefixOf s.data

/-! Backtracking matchers for the three `re.search` patterns of
`process_query`.  Each combinator consumes characters from the head of the
list and hands the rest to a continuation `k`; alternatives are tried in
the preference order of Python's regex engine. -/

/-- Regex `\s*` immediately followed by the rest of the pattern `k`.
Greedy: longer whitespace runs are preferred, shorter ones are tried when
the continuation fails. -/
def sStarThen (k : List Char → Option α) : List Char → Option α
  | [] => k []
  | c :: cs =>
    if isSpaceChar c then
      match sStarThen k cs with
      | some r => some r
      | none => k (c :: cs)
    else k (c :: cs)

/-- Regex `\s+` (greedy) followed by the rest of the pattern `k`. -/
def sPlusThen (k : List Char → Option α) : List Char → Option α
  | [] => none
  | c :: cs => if isSpaceChar c then sStarThen k cs else none

/-- Regex `(.+)` (greedy) at the end of a pattern: captures the longest
nonempty run of non-newline characters starting here.  Nothing follows it
in any of the source patterns, so no backtracking is needed. -/
def dotPlusGreedy : List Char → Option (List Char)
  | [] => none
  | c :: cs => if dotChar c then some (List.takeWhile dotChar (c :: cs)) else none

/-- Regex `(.+?)` (lazy) followed by the rest of the pattern `k`: shorter
captures are preferred.  Returns the captured group paired with the
continuation's result; `acc` holds the characters captured so far. -/
def lazyDotPlusThen (k : List Char → Option α) (acc : List Char) :
    List Char → Option (List Char × α)
  | [] => none
  | c :: cs =>
    if dotChar c then
      match k cs with
      | some r => some (acc ++ [c], r)
      | none => lazyDotPlusThen k (acc ++ [c]) cs
    else none

/-- One attempt of `browse\s+(.+)` anchored at the head of `l`
(source line 249); returns capture group 1. -/
def tryBrowseAt (l : List Char) : Option (List Char) :=
  if l.take 6 = "browse".data then sPlusThen dotPlusGreedy (l.drop 6) else none

/-- Python `re.search(r'browse\s+(.+)', s)`: the leftmost starting
position that admits a match wins. -/
def reSearchBrowse : List Char → Option (List Char)
  | [] => none
  | c :: cs =>
    match tryBrowseAt (c :: cs) with
    | some g => some g
    | none => reSearchBrowse cs

/-- Tail of the search-in pattern from the literal `in` on:
`in\s+(.+)`; returns capture group 2. -/
def inTailMatch (l : List Char) : Option (List Char) :=
  if l.take 2 = "in".data then sPlusThen dotPlusGreedy (l.drop 2) else none

/-- Tail of `search\s+(.+?)\s+in\s+(.+)` after the literal `search`:
greedy `\s+`, lazy group 1, greedy `\s+`, literal `in`, greedy `\s+`,
greedy group 2. -/
def searchInTail (l : List Char) : Option (List Char × List Char) :=
  sPlusThen (lazyDotPlusThen (sPlusThen inTailMatch) []) l

/-- One attempt of `search\s+(.+?)\s+in\s+(.+)` anchored at the head of
`l` (source line 262). -/
def trySearchInAt (l : List Char) : Option (List Char × List Char) :=
  if l.take 6 = "search".data then searchInTail (l.drop 6) else none

/-- Python `re.search(r'search\s+(.+?)\s+in\s+(.+)', s)`. -/
def reSearchIn : List Char → Option (List Char × List Char)
  | [] => none
  | c :: cs =>
    match trySearchInAt (c :: cs) with
    | some g => some g
    | none => reSearchIn cs

/-- Tail of `item\s+(\w+)\s+(\w+)` after the literal `item`.  The `\w`
and `\s` classes are disjoint, so the greedy `(\w+)` groups can only be
the maximal word runs; failed backtracking branches are elided. -/
def itemTail (l : List Char) : Option (List Char × List Char) :=
  sPlusThen (fun m =>
    let g1 := m.takeWhile wordChar
    if g1.isEmpty then none
    else
      sPlusThen (fun m2 =>
        let g2 := m2.takeWhile wordChar
        if g2.isEmpty then none else some (g1, g2)) (m.drop g1.length)) l

/-- One attempt of `item\s+(\w+)\s+(\w+)` anchored at the head of `l`
(source line 274). -/
def tryItemAt (l : List Char) : Option (List Char × List Char) :=
  if l.take 4 = "item".data then itemTail (l.drop 4) else none

/-- Python `re.search(r'item\s+(\w+)\s+(\w+)', s)`. -/
def reSearchItem : List Char → Option (List Char × List Char)
  | [] => none
  | c :: cs =>
    match tryItemAt (c :: cs) with
    | some g => some g
    | none => reSearchItem cs

/-- One collection entry as returned by `dmGetCollectionList`.  The
Python code reads the keys `alias`, `name`, `secondary` with `.get(k,'')`
defaults; missing keys are modelled as the empty string. -/
structure Collection where
  alias_ : String
  name : String
  secondary : String
deriving DecidableEq

/-- The intent extracted by `process_query`'s ordered rules.  Each
constructor corresponds to one handler call in the source. -/
inductive Intent where
  | Help
  | ListCollections
  | Browse (name : String)
  | SearchInCollection (terms collection : String)
  | SearchAll (terms : String)
  | ItemDetail (collectionAlias itemId : String)
deriving DecidableEq

/-- The literal set matched by the help rule (source line 241). -/
def helpLiterals (t : String) : Bool := t = "help" || t = "?" || t = "commands"

/-- The per-collection test of the display-name rule (source lines
256-257): nonempty lowercased display name occurring in the input. -/
def collectionNameMatches (t : String) (c : Collection) : Bool :=
  pyLower c.name != "" && pyContains t (pyLower c.name)

/-- The ordered intent rules of `process_query` (source lines 236-281):
strip and lowercase the input, then help literals, `collections`
substring, `browse` pattern, display-name substring over the first 10
collections, `search ... in ...` pattern, `search ` prefix, `item`
pattern, and the search-all fallback. -/
def resolveIntent (collections : List Collection) (raw : String) : Intent :=
  let t := pyLower (pyStrip raw)
  if helpLiterals t then .Help
  else if pyContains t "collections" || pyContains t "list collections" then .ListCollections
  else
    match reSearchBrowse t.data with
    | some rest => .Browse (pyStrip ⟨rest⟩)
    | none =>
      match (collections.take 10).find? (collectionNameMatches t) with
      | some c => .Browse (pyLstripSlash c.alias_)
      | none =>
        match reSearchIn t.data with
        | some (terms, coll) => .SearchInCollection (pyStrip ⟨terms⟩) (pyStrip ⟨coll⟩)
        | none =>
          if pyStartsWith t "search " then .SearchAll (pyStrip ⟨t.data.drop 7⟩)
          else
            match reSearchItem t.data with
            | some (ca, iid) => .ItemDetail ⟨ca⟩ ⟨iid⟩
            | none => .SearchAll t

/-! Typed data model of the API payloads.

A search/browse response dict is modelled by `SearchResult`: an absent
`records` key and an empty list are identified (both are falsy at source
line 151); an absent `pager` key and a `pager` dict without `total` are
identified as `pagerTotal = none` (both make source line 179 fall back
to the default).  Record dicts carry optional string fields.  Collection
dicts are modelled with all three keys present; the loader's
`.get(k, '')` defaults collapse missing keys to `''` (the cosmetic
`'Unknown'`/`'unknown'` defaults of `list_collections`, which fire only
for missing keys, are outside this model). -/

/-- One record of a search/browse response. -/
structure SearchRecord where
  title : Option String
  date : Option String
  collection : Option String
  pointer : Option String
deriving DecidableEq

/-- A search/browse response payload. -/
structure SearchResult where
  error : Option String
  records : List SearchRecord
  pagerTotal : Option Int
deriving DecidableEq

/-- Python `dict.get(k, dflt)` over an association list with string
values. -/
def dictGetD (d : List (String × String)) (k dflt : String) : String :=
  match d.find? (fun kv => kv.1 = k) with
  | some kv => kv.2
  | none => dflt

/-- Python `dict.get(k)` over an association list with string values. -/
def dictGet? (d : List (String × String)) (k : String) : Option String :=
  (d.find? (fun kv => kv.1 = k)).map (fun kv => kv.2)

/-- The item URL constructed by the formatters (source lines 170-171,
230-231, 360-361): strip leading slashes from the collection alias. -/
def itemUrl (collectionAlias pointer : String) : String :=
  "https://digitalcollections.aucegypt.edu/digital/collection/" ++
    pyLstripSlash collectionAlias ++ "/id/" ++ pointer

/-- Record rendering loop of `format_search_results` (source lines
162-177), with `i` the 1-based `enumerate` counter. -/
def fsrRecordLines (i : Nat) : List SearchRecord → List String
  | [] => []
  | r :: rs =>
    let title := r.title.getD "Untitled"
    let date := r.date.getD "Date unknown"
    let alias0 := r.collection.getD ""
    let pointer := r.pointer.getD ""
    let url := itemUrl alias0 pointer
    ([toString i ++ ". **" ++ title ++ "**"] ++
        (if date != "" && date != "Date unknown" then ["   📅 " ++ date] else []) ++
        ["   🔗 " ++ url, ""]) ++
      fsrRecordLines (i + 1) rs

/-- The truncation summary line of `format_search_results`
(source line 181). -/
def showingLine (shown : Nat) (total : Int) : String :=
  "📊 Showing " ++ toString shown ++ " of " ++ toString total

/-- The `output` list built by `format_search_results` on the non-error,
nonempty-records path (source lines 154-181): header, first 10 records,
and the truncation summary when the pager total exceeds the rendered
count (`total` defaults to the rendered count when the pager metadata is
absent). -/
def format_search_results_lines (results : SearchResult) (collectionName : String) :
    List String :=
  let header :=
    if collectionName != "" then ["🔍 Search results from '" ++ collectionName ++ "':\n"]
    else ["🔍 Search results:\n"]
  let recs := results.records.take 10
  let total := results.pagerTotal.getD (recs.length : Int)
  header ++ fsrRecordLines 1 recs ++
    (if total > (recs.length : Int) then [showingLine recs.length total] else [])

/-- `format_search_results` (source lines 146-183). -/
def format_search_results (results : SearchResult) (collectionName : String) : String :=
  match results.error with
  | some e => "❌ Search error: " ++ e
  | none =>
    if results.records.isEmpty then "📭 No items found matching your search criteria."
    else String.intercalate "\n" (format_search_results_lines results collectionName)

/-- Conditional field line of `format_item_details`: rendered only when
the resolved value is truthy (nonempty). -/
def optFieldLine (label v : String) : List String :=
  if v != "" then [label ++ v] else []

/-- The `output` list built by `format_item_details` on the non-error
path (source lines 190-232).  Each two-key field reproduces
`item.get(short, item.get(long, ''))`: the short-code key wins whenever
it is present, otherwise the long key, otherwise the empty string. -/
def format_item_details_lines (item : List (String × String)) (collectionAlias : String) :
    List String :=
  let title := dictGetD item "title" "Untitled"
  let date := dictGetD item "date" ""
  let creator :=
    match dictGet? item "creato" with
    | some v => v
    | none => dictGetD item "creator" ""
  let subject :=
    match dictGet? item "subjec" with
    | some v => v
    | none => dictGetD item "subject" ""
  let description :=
    match dictGet? item "descri" with
    | some v => v
    | none => dictGetD item "description" ""
  let formatField :=
    match dictGet? item "format" with
    | some v => v
    | none => dictGetD item "type" ""
  let rights := dictGetD item "rights" ""
  let pointer :=
    match dictGet? item "dmrecord" with
    | some v => v
    | none => dictGetD item "pointer" ""
  ["📄 **Item Details:**\n", "**Title:** " ++ title] ++
    optFieldLine "**Date:** " date ++
    optFieldLine "**Creator:** " creator ++
    optFieldLine "**Subject:** " subject ++
    optFieldLine "**Description:** " description ++
    optFieldLine "**Format:** " formatField ++
    optFieldLine "**Rights:** " rights ++
    (if pointer != "" then ["\n🔗 **View Item:** " ++ itemUrl collectionAlias pointer] else [])

/-- `format_item_details` (source lines 185-234). -/
def format_item_details (item : List (String × String)) (collectionAlias : String) : String :=
  if (dictGet? item "error").isSome then
    "❌ Error retrieving item: " ++ dictGetD item "error" ""
  else String.intercalate "\n" (format_item_details_lines item collectionAlias)

/-- Python dict assignment `m[k] = v`: overwrite in place when the key
exists, otherwise append (insertion order preserved). -/
def insertAssoc (m : List (String × String)) (k v : String) : List (String × String) :=
  if (m.find? (fun kv => kv.1 = k)).isSome then
    m.map (fun kv => if kv.1 = k then (k, v) else kv)
  else m ++ [(k, v)]

/-- The lookup index built by `initialize` (source lines 136-141): for
each collection, strip leading slashes from the alias and, when the
result is nonempty, map both the lowercased alias and the lowercased
display name to it. -/
def initialize_lookup (data : List Collection) : List (String × String) :=
  data.foldl (fun m c =>
    let al := pyLstripSlash c.alias_
    if al != "" then insertAssoc (insertAssoc m (pyLower al) al) (pyLower c.name) al
    else m) []

/-- The per-key test of the fallback scan in `find_collection_alias`
(source line 391): the input occurs in the key, or the key occurs in the
input. -/
def partialKeyMatch (n key : String) : Bool := pyContains key n || pyContains n key

/-- `find_collection_alias` (source lines 381-394): lowercase and trim
the input, try an exact key match, then scan the keys in insertion order
for the first partial match. -/
def find_collection_alias (lookup : List (String × String)) (collectionName : String) :
    Option String :=
  let n := pyStrip (pyLower collectionName)
  match lookup.find? (fun kv => kv.1 = n) with
  | some kv => some kv.2
  | none => (lookup.find? (fun kv => partialKeyMatch n kv.1)).map (fun kv => kv.2)

/-- The remote client interface consumed by the orchestrator:
`search_items` (alias, terms, max_records), `browse_collection` (alias,
default caps), `get_item_info` (alias, item id). -/
structure ApiModel where
  search : String → String → Nat → SearchResult
  browse : String → SearchResult
  getItem : String → String → List (String × String)

/-- The fixed help text returned by `get_help_message`
(source lines 396-419, after the trailing `.strip()`). -/
def get_help_message : String :=
  "🤖 **AUC Archive Chatbot Help**\n\n**Commands:**\n" ++
  "• `list collections` - Show all available collections\n" ++
  "• `browse [collection]` - Browse items in a collection\n" ++
  "• `search [terms]` - Search across all collections\n" ++
  "• `search [terms] in [collection]` - Search within specific collection\n" ++
  "• `item [collection] [id]` - Get details for specific item\n" ++
  "• `help` - Show this help message\n\n**Examples:**\n" ++
  "• `search Ottoman Empire`\n" ++
  "• `browse manuscripts`\n" ++
  "• `search architecture in photographs`\n" ++
  "• `item manuscripts 1234`\n\n**Tips:**\n" ++
  "• Use collection names or aliases (shown in parentheses)\n" ++
  "• Search terms can be multiple words\n" ++
  "• Results include direct links to view items online"

/-- The `output` list built by `list_collections` on the non-empty path
(source lines 288-301). -/
def list_collections_lines (collections : List Collection) : List String :=
  ["📚 **Available Collections:**\n"] ++
    (collections.take 20).flatMap (fun c =>
      ["• **" ++ c.name ++ "** (`" ++ pyLstripSlash c.alias_ ++ "`)"] ++
        (if c.secondary != "" && c.secondary != "0" then ["  └─ Part of: " ++ c.secondary]
         else [])) ++
    (if collections.length > 20 then
      ["\n📊 Showing 20 of " ++ toString collections.length ++ " collections"]
     else [])

/-- `list_collections` (source lines 283-302). -/
def list_collections (collections : List Collection) : String :=
  if collections.isEmpty then "❌ Collections not loaded. Please restart the chatbot."
  else String.intercalate "\n" (list_collections_lines collections)

/-- The collection-not-found message (source lines 308 and 320). -/
def notFoundMessage (collectionName : String) : String :=
  "❌ Collection '" ++ collectionName ++
    "' not found. Use 'list collections' to see available collections."

/-- The display-name recovery of `browse_collection` and
`search_in_collection` (source lines 311-312, 323-324): the first stored
collection whose raw alias equals the resolved alias, with the query's
collection name as fallback. -/
def displayNameFor (collections : List Collection) (resolvedAlias fallback : String) :
    String :=
  match collections.find? (fun c => c.alias_ = resolvedAlias) with
  | some c => c.name
  | none => fallback

/-- `browse_collection` (source lines 304-314). -/
def browse_collection (api : ApiModel) (collections : List Collection)
    (lookup : List (String × String)) (collectionName : String) : String :=
  match find_collection_alias lookup collectionName with
  | none => notFoundMessage collectionName
  | some al =>
    format_search_results (api.browse al) (displayNameFor collections al collectionName)

/-- `search_in_collection` (source lines 316-326); `search_items` uses
its default `max_records = 20`. -/
def search_in_collection (api : ApiModel) (collections : List Collection)
    (lookup : List (String × String)) (searchTerms collectionName : String) : String :=
  match find_collection_alias lookup collectionName with
  | none => notFoundMessage collectionName
  | some al =>
    format_search_results (api.search al searchTerms 20)
      (displayNameFor collections al collectionName)

/-- The accumulation loop of `search_all_collections` (source lines
335-346): over the first 5 collections, query each nonempty raw alias
with a per-collection cap of 5; keep the records, and the display names
of exactly those collections whose query returned at least one record. -/
def search_all_accum (api : ApiModel) (collections : List Collection)
    (searchTerms : String) : List SearchRecord × List String :=
  (collections.take 5).foldl (fun acc c =>
    if c.alias_ != "" then
      let results := api.search c.alias_ searchTerms 5
      if !results.records.isEmpty then (acc.1 ++ results.records, acc.2 ++ [c.name])
      else acc
    else acc) ([], [])

/-- Record rendering loop of `search_all_collections` (source lines
354-368). -/
def sacRecordLines (i : Nat) : List SearchRecord → List String
  | [] => []
  | r :: rs =>
    let title := r.title.getD "Untitled"
    let date := r.date.getD ""
    let alias0 := r.collection.getD ""
    let pointer := r.pointer.getD ""
    let url := itemUrl alias0 pointer
    ([toString i ++ ". **" ++ title ++ "**"] ++
        (if date != "" then ["   📅 " ++ date] else []) ++
        ["   📚 Collection: " ++ alias0, "   🔗 " ++ url, ""]) ++
      sacRecordLines (i + 1) rs

/-- The trailer line of `search_all_collections` (source line 370). -/
def searchedInLine (names : List String) : String :=
  "📊 Searched in: " ++ String.intercalate ", " (names.take 3)

/-- The overflow trailer line of `search_all_collections`
(source line 372). -/
def moreCollectionsLine (names : List String) : String :=
  " and " ++ toString (names.length - 3) ++ " more collections"

/-- The `output` list built by `search_all_collections` on the
found-something path (source lines 352-372). -/
def search_all_lines (searchTerms : String) (allRecords : List SearchRecord)
    (searchedCollections : List String) : List String :=
  ["🔍 Search results for '" ++ searchTerms ++ "' across collections:\n"] ++
    sacRecordLines 1 (allRecords.take 10) ++
    [searchedInLine searchedCollections] ++
    (if searchedCollections.length > 3 then [moreCollectionsLine searchedCollections] else [])

/-- The no-results message of `search_all_collections` (source line 349). -/
def noResultsAcrossMessage (searchTerms : String) : String :=
  "📭 No items found for '" ++ searchTerms ++ "' across searched collections."

/-- `search_all_collections` (source lines 328-374). -/
def search_all_collections (api : ApiModel) (collections : List Collection)
    (searchTerms : String) : String :=
  if collections.isEmpty then "❌ No collections available for search."
  else
    let acc := search_all_accum api collections searchTerms
    if acc.1.isEmpty then noResultsAcrossMessage searchTerms
    else String.intercalate "\n" (search_all_lines searchTerms acc.1 acc.2)

/-- `get_item_details` (source lines 376-379). -/
def get_item_details (api : ApiModel) (collectionAlias itemId : String) : String :=
  format_item_details (api.getItem collectionAlias itemId) collectionAlias

/-- The full query pipeline of `process_query` (source lines 236-281):
resolve the intent, then dispatch to the handler the corresponding
source branch calls.  Normalization, rule order and argument extraction
live in `resolveIntent`. -/
def process_query (api : ApiModel) (collections : List Collection)
    (lookup : List (String × String)) (raw : String) : String :=
  match resolveIntent collections raw with
  | .Help => get_help_message
  | .ListCollections => list_collections collections
  | .Browse n => browse_collection api collections lookup n
  | .SearchInCollection terms coll => search_in_collection api collections lookup terms coll
  | .SearchAll terms => search_all_collections api collections terms
  | .ItemDetail ca iid => get_item_details api ca iid

/-! Dynamic model of the formatters.

The typed model above covers well-shaped payloads.  The failure-policy
claim is about arbitrary dict payloads, so the two formatters are also
embedded under Python's dynamic semantics: payload values are JSON-like
`PyVal`s (floats and booleans are outside the model) and every operation
that can raise in Python — subscripting/slicing a non-sequence, calling
`.get` or `.lstrip` on a value of the wrong type, ordering comparisons
between incompatible types — is modelled as an `Except.error` carrying
the exception's type name. -/

/-- A JSON-like Python value. -/
inductive PyVal where
  | none
  | str (s : String)
  | int (n : Int)
  | list (l : List PyVal)
  | dict (d : List (String × PyVal))

mutual

/-- Python `repr` of a value (string escaping is simplified to plain
quoting; no theorem depends on the repr of containers). -/
def pyReprVal : PyVal → String
  | .none => "None"
  | .str s => "'" ++ s ++ "'"
  | .int n => toString n
  | .list l => "[" ++ String.intercalate ", " (pyReprList l) ++ "]"
  | .dict d => "\x7b" ++ String.intercalate ", " (pyReprDict d) ++ "\x7d"

/-- Reprs of the elements of a list value. -/
def pyReprList : List PyVal → List String
  | [] => []
  | v :: vs => pyReprVal v :: pyReprList vs

/-- Reprs of the entries of a dict value. -/
def pyReprDict : List (String × PyVal) → List String
  | [] => []
  | kv :: kvs => ("'" ++ kv.1 ++ "': " ++ pyReprVal kv.2) :: pyReprDict kvs

end

/-- Python `str()` conversion, as used by f-string interpolation. -/
def pyToStr : PyVal → String
  | .none => "None"
  | .str s => s
  | .int n => toString n
  | .list l => "[" ++ String.intercalate ", " (pyReprList l) ++ "]"
  | .dict d => "\x7b" ++ String.intercalate ", " (pyReprDict d) ++ "\x7d"

/-- Python truthiness for `PyVal`s. -/
def pyTruthy : PyVal → Bool
  | .none => false
  | .str s => s != ""
  | .int n => n != 0
  | .list l => !l.isEmpty
  | .dict d => !d.isEmpty

/-- Python `dict.get(k, dflt)` over a dynamic dict. -/
def dynGet (d : List (String × PyVal)) (k : String) (dflt : PyVal) : PyVal :=
  match d.find? (fun kv => kv.1 = k) with
  | some kv => kv.2
  | none => dflt

/-- Python `k in d` for a dynamic dict. -/
def dynHasKey (d : List (String × PyVal)) (k : String) : Bool :=
  (d.find? (fun kv => kv.1 = k)).isSome

/-- Python `v != lit` for a string literal `lit`: values that are not
strings are never equal to a string. -/
def pyNeStr (v : PyVal) (lit : String) : Bool :=
  match v with
  | .str t => t != lit
  | _ => true

/-- Python slicing `v[:10]` (source line 160): defined for lists and
strings, a `TypeError` for every other type. -/
def pySlice10 : PyVal → Except String PyVal
  | .list l => .ok (.list (l.take 10))
  | .str s => .ok (.str ⟨s.data.take 10⟩)
  | _ => .error "TypeError"

/-- Python iteration over the sliced value: list elements, or the
characters of a string as one-character strings. -/
def pyElems : PyVal → Except String (List PyVal)
  | .list l => .ok l
  | .str s => .ok (s.data.map (fun c => .str ⟨[c]⟩))
  | .dict d => .ok (d.map (fun kv => .str kv.1))
  | _ => .error "TypeError"

/-- Python `len` of the sliced value. -/
def pyLen : PyVal → Except String Nat
  | .list l => .ok l.length
  | .str s => .ok s.data.length
  | .dict d => .ok d.length
  | _ => .error "TypeError"

/-- One iteration of the record loop of `format_search_results` (source
lines 162-177) in the dynamic model: the element must be a dict (else
`.get` raises `AttributeError`) and its `collection` value must be a
string (else `.lstrip` raises `AttributeError`). -/
def dynRecordLines (i : Nat) (v : PyVal) : Except String (List String) :=
  match v with
  | .dict r =>
    let title := dynGet r "title" (.str "Untitled")
    let date := dynGet r "date" (.str "Date unknown")
    let collectionAlias := dynGet r "collection" (.str "")
    let pointer := dynGet r "pointer" (.str "")
    match collectionAlias with
    | .str ca =>
      .ok ([toString i ++ ". **" ++ pyToStr title ++ "**"] ++
        (if pyTruthy date && pyNeStr date "Date unknown" then ["   📅 " ++ pyToStr date]
         else []) ++
        ["   🔗 " ++ itemUrl ca (pyToStr pointer), ""])
    | _ => .error "AttributeError"
  | _ => .error "AttributeError"

/-- The record loop of `format_search_results` in the dynamic model:
the first ill-shaped record raises. -/
def dynRecordsLines (i : Nat) : List PyVal → Except String (List String)
  | [] => .ok []
  | v :: vs =>
    match dynRecordLines i v with
    | .error e => .error e
    | .ok first =>
      match dynRecordsLines (i + 1) vs with
      | .error e => .error e
      | .ok rest => .ok (first ++ rest)

/-- `format_search_results` (source lines 146-183) under Python's
dynamic semantics, for an arbitrary dict payload; each `.error` marks an
operation that raises in Python, in source order. -/
def format_search_results_dyn (results : List (String × PyVal)) (collectionName : String) :
    Except String String :=
  if dynHasKey results "error" then
    .ok ("❌ Search error: " ++ pyToStr (dynGet results "error" .none))
  else
    let recsVal := dynGet results "records" .none
    if !pyTruthy recsVal then .ok "📭 No items found matching your search criteria."
    else
      let header :=
        if collectionName != "" then ["🔍 Search results from '" ++ collectionName ++ "':\n"]
        else ["🔍 Search results:\n"]
      match pySlice10 recsVal with
      | .error e => .error e
      | .ok sliced =>
        match pyElems sliced with
        | .error e => .error e
        | .ok elems =>
          match dynRecordsLines 1 elems with
          | .error e => .error e
          | .ok body =>
            match pyLen sliced with
            | .error e => .error e
            | .ok n =>
              match dynGet results "pager" (.dict []) with
              | .dict pd =>
                match dynGet pd "total" (.int (n : Int)) with
                | .int t =>
                  let tail :=
                    if t > (n : Int) then
                      ["📊 Showing " ++ toString n ++ " of " ++ pyToStr (PyVal.int t)]
                    else []
                  .ok (String.intercalate "\n" (header ++ body ++ tail))
                | _ => .error "TypeError"
              | _ => .error "AttributeError"

/-- `format_item_details` (source lines 185-234) under Python's dynamic
semantics.  For dict payloads every operation the source uses on field
values (`in`, `.get`, truthiness, `!=` against a literal, f-string
interpolation) is total, so the definition has no error path. -/
def format_item_details_dyn (item : List (String × PyVal)) (collectionAlias : String) :
    Except String String :=
  if dynHasKey item "error" then
    .ok ("❌ Error retrieving item: " ++ pyToStr (dynGet item "error" .none))
  else
    let title := dynGet item "title" (.str "Untitled")
    let date := dynGet item "date" (.str "")
    let creator := dynGet item "creato" (dynGet item "creator" (.str ""))
    let subject := dynGet item "subjec" (dynGet item "subject" (.str ""))
    let description := dynGet item "descri" (dynGet item "description" (.str ""))
    let formatField := dynGet item "format" (dynGet item "type" (.str ""))
    let rights := dynGet item "rights" (.str "")
    let pointer := dynGet item "dmrecord" (dynGet item "pointer" (.str ""))
    let lines :=
      ["📄 **Item Details:**\n", "**Title:** " ++ pyToStr title] ++
      (if pyTruthy date then ["**Date:** " ++ pyToStr date] else []) ++
      (if pyTruthy creator then ["**Creator:** " ++ pyToStr creator] else []) ++
      (if pyTruthy subject then ["**Subject:** " ++ pyToStr subject] else []) ++
      (if pyTruthy description then ["**Description:** " ++ pyToStr description] else []) ++
      (if pyTruthy formatField then ["**Format:** " ++ pyToStr formatField] else []) ++
      (if pyTruthy rights then ["**Rights:** " ++ pyToStr rights] else []) ++
      (if pyTruthy pointer then
        ["\n🔗 **View Item:** " ++ itemUrl collectionAlias (pyToStr pointer)]
       else [])
    .ok (String.intercalate "\n" lines)

/-- Observable for the record cap: whether an output line is a record's
link line (every rendered record emits exactly one such line, and no
other line of the output starts this way). -/
def urlLineMarker (l : String) : Bool := "   🔗 ".data.isPrefixOf l.data

/-! Claim-side renderer for the item formatter (used to state the field
order / key preference / omission characterization of C5). -/

/-- Modelled from the claim: the fixed field order (as rendered labels)
and, per field, the candidate keys in preference order (short code
first). -/
def specFieldKeys : List (String × List String) :=
  [("**Title:** ", ["title"]), ("**Date:** ", ["date"]),
   ("**Creator:** ", ["creato", "creator"]),
   ("**Subject:** ", ["subjec", "subject"]),
   ("**Description:** ", ["descri", "description"]),
   ("**Format:** ", ["format", "type"]), ("**Rights:** ", ["rights"])]

/-- Resolve a semantic field from its candidate keys in preference
order: the first present key wins, whatever its value. -/
def resolveField (item : List (String × String)) (keys : List String) : Option String :=
  keys.findSome? (fun k => dictGet? item k)

/-- Claim-side field rendering: each field in the fixed order, omitted
when absent or empty — except the title, which always renders and falls
back to the placeholder `Untitled`. -/
def specFieldLines (item : List (String × String)) : List String :=
  specFieldKeys.flatMap (fun fk =>
    if fk.1 = "**Title:** " then [fk.1 ++ (resolveField item fk.2).getD "Untitled"]
    else
      match resolveField item fk.2 with
      | some v => if v != "" then [fk.1 ++ v] else []
      | none => [])

/-- Claim-side view-item tail: `dmrecord` preferred over `pointer`,
omitted when absent or empty. -/
def specViewItemLines (item : List (String × String)) (collectionAlias : String) :
    List String :=
  match resolveField item ["dmrecord", "pointer"] with
  | some p => if p != "" then ["\n🔗 **View Item:** " ++ itemUrl collectionAlias p] else []
  | none => []

/-! Shape predicate for the safety claim: payloads on which
`format_search_results` performs no ill-typed operation. -/

/-- A record element is well-shaped when it is a dict whose `collection`
value (if present) is a string. -/
def wellShapedRecord (v : PyVal) : Bool :=
  match v with
  | .dict d =>
    match dynGet d "collection" (.str "") with
    | .str _ => true
    | _ => false
  | _ => false

/-- A search payload is well-shaped when its `records` value, if truthy,
is a list of well-shaped records, and its `pager` value, if present, is
a dict whose `total` value, if present, is an integer. -/
def wellShapedResults (results : List (String × PyVal)) : Bool :=
  (match dynGet results "records" .none with
   | .list rs => rs.all wellShapedRecord
   | v => !pyTruthy v) &&
  (match dynGet results "pager" (.dict []) with
   | .dict pd =>
     (match dynGet pd "total" (.int 0) with
      | .int _ => true
      | _ => false)
   | _ => false)

/-! Concrete inputs used by witnesses and counterexamples. -/

/-- An API model that always returns empty results. -/
def apiNull : ApiModel :=
  ⟨fun _ _ _ => ⟨none, [], none⟩, fun _ => ⟨none, [], none⟩, fun _ _ => []⟩

/-- A single concrete record in the collection with alias `a`. -/
def recA : SearchRecord := ⟨some "t", none, some "a", some "1"⟩

/-- An API model where only the collection `a` has a matching record. -/
def apiC3 : ApiModel :=
  ⟨fun al _ _ => if al = "a" then ⟨none, [recA], none⟩ else ⟨none, [], none⟩,
   fun _ => ⟨none, [], none⟩, fun _ _ => []⟩

/-- A second API model that agrees with `apiC3` on the collection `a`
but differs everywhere else. -/
def apiC3b : ApiModel :=
  ⟨fun al _ _ =>
    if al = "a" then ⟨none, [recA], none⟩
    else ⟨some "boom", [⟨some "x", none, none, none⟩], some 99⟩,
   fun _ => ⟨none, [], none⟩, fun _ _ => []⟩

/-- An API model whose record echoes the queried collection alias. -/
def apiTag : ApiModel :=
  ⟨fun al _ _ => ⟨none, [⟨some "t", none, some al, some "1"⟩], none⟩,
   fun _ => ⟨none, [], none⟩, fun _ _ => []⟩

/-- Concrete search records and payloads for the formatter claims. -/
def recW1 : SearchRecord := ⟨some "r1", some "1900", some "c", some "10"⟩

/-- A record without a date and with a slash-prefixed collection alias. -/
def recW2 : SearchRecord := ⟨some "r2", none, some "/c", some "11"⟩

/-- A two-record payload whose pager reports 5 results in total. -/
def resW : SearchResult := ⟨none, [recW1, recW2], some 5⟩

/-- A payload with no records but a positive pager total. -/
def resEmptyTotal : SearchResult := ⟨none, [], some 5⟩

/-- An item payload where the short-code key `creato` is present (and
empty) next to a nonempty long-name key `creator`. -/
def itemW : List (String × String) :=
  [("creato", ""), ("creator", "x"), ("date", "1900"), ("pointer", "7")]

/-! Character-level lemmas about ASCII case folding and whitespace. -/

theorem char_eq_iff_toNat (c d : Char) : c = d ↔ c.toNat = d.toNat :=
  ⟨fun h => by rw [h], fun h => Char.eq_of_val_eq (UInt32.toNat.inj h)⟩

theorem toLower_of_upper (c : Char) (h : 65 ≤ c.toNat ∧ c.toNat ≤ 90) :
    c.toLower = Char.ofNat (c.toNat + 32) := by
  unfold Char.toLower
  exact if_pos h

theorem toLower_of_not_upper (c : Char) (h : ¬(65 ≤ c.toNat ∧ c.toNat ≤ 90)) :
    c.toLower = c := by
  unfold Char.toLower
  exact if_neg h

theorem toLower_idem (c : Char) : c.toLower.toLower = c.toLower := by
  by_cases h : 65 ≤ c.toNat ∧ c.toNat ≤ 90
  · rw [toLower_of_upper c h]
    obtain ⟨h1, h2⟩ := h
    generalize c.toNat = n at h1 h2
    interval_cases n <;> decide
  · rw [toLower_of_not_upper c h]
    exact toLower_of_not_upper c h

theorem isSpaceChar_eq_false_of_upper (c : Char) (h : 65 ≤ c.toNat ∧ c.toNat ≤ 90) :
    isSpaceChar c = false := by
  have e1 : (' ' : Char).toNat = 32 := rfl
  have e2 : ('\t' : Char).toNat = 9 := rfl
  have e3 : ('\n' : Char).toNat = 10 := rfl
  have e4 : ('\r' : Char).toNat = 13 := rfl
  have e5 : ('\x0b' : Char).toNat = 11 := rfl
  have e6 : ('\x0c' : Char).toNat = 12 := rfl
  unfold isSpaceChar
  simp only [Bool.or_eq_false_iff, decide_eq_false_iff_not]
  refine ⟨⟨⟨⟨⟨?_, ?_⟩, ?_⟩, ?_⟩, ?_⟩, ?_⟩ <;>
    (intro he; rw [char_eq_iff_toNat] at he; omega)

theorem isSpaceChar_toLower (c : Char) : isSpaceChar c.toLower = isSpaceChar c := by
  by_cases h : 65 ≤ c.toNat ∧ c.toNat ≤ 90
  · rw [toLower_of_upper c h, isSpaceChar_eq_false_of_upper c h]
    obtain ⟨h1, h2⟩ := h
    generalize c.toNat = n at h1 h2
    interval_cases n <;> decide
  · rw [toLower_of_not_upper c h]

/-! Lemmas about stripping and lowering. -/

theorem dropWhile_eq_self_of_head {α} (p : α → Bool) (l : List α)
    (h : ∀ c, l.head? = some c → p c = false) : l.dropWhile p = l := by
  cases l with
  | nil => rfl
  | cons a t =>
    rw [List.dropWhile_cons, h a rfl]
    simp

theorem head_dropWhile_false {α} (p : α → Bool) (l : List α) :
    ∀ c, (l.dropWhile p).head? = some c → p c = false := by
  induction l with
  | nil => intro c h; simp at h
  | cons a t ih =>
    intro c h
    rw [List.dropWhile_cons] at h
    by_cases hp : p a
    · rw [if_pos hp] at h
      exact ih c h
    · rw [if_neg hp] at h
      simp only [List.head?_cons, Option.some.injEq] at h
      subst h
      exact Bool.eq_false_iff.mpr hp

theorem dropWhile_exists_append {α} (p : α → Bool) (l : List α) :
    ∃ k, l = k ++ l.dropWhile p := by
  induction l with
  | nil => exact ⟨[], rfl⟩
  | cons a t ih =>
    rw [List.dropWhile_cons]
    by_cases hp : p a
    · rw [if_pos hp]
      obtain ⟨k, hk⟩ := ih
      exact ⟨a :: k, by rw [List.cons_append, ← hk]⟩
    · rw [if_neg hp]
      exact ⟨[], rfl⟩

theorem head?_append_some {α} {l₁ : List α} (l₂ : List α) {c : α}
    (h : l₁.head? = some c) : (l₁ ++ l₂).head? = some c := by
  cases l₁ with
  | nil => simp at h
  | cons a t => simpa using h

theorem stripLeft_eq_self (l : List Char)
    (h : ∀ c, l.head? = some c → isSpaceChar c = false) : stripLeft l = l :=
  dropWhile_eq_self_of_head _ _ h

theorem stripRight_eq_self (l : List Char)
    (h : ∀ c, l.getLast? = some c → isSpaceChar c = false) : stripRight l = l := by
  unfold stripRight
  rw [dropWhile_eq_self_of_head _ _ (fun c hc => h c (by rwa [List.head?_reverse] at hc))]
  exact List.reverse_reverse l

theorem pyStripList_eq_self (l : List Char)
    (h1 : ∀ c, l.head? = some c → isSpaceChar c = false)
    (h2 : ∀ c, l.getLast? = some c → isSpaceChar c = false) :
    pyStripList l = l := by
  unfold pyStripList
  rw [stripLeft_eq_self l h1, stripRight_eq_self l h2]

theorem head?_stripRight_some {l : List Char} {c : Char}
    (h : (stripRight l).head? = some c) : l.head? = some c := by
  unfold stripRight at h
  obtain ⟨k, hk⟩ := dropWhile_exists_append isSpaceChar l.reverse
  have hl : l = (l.reverse.dropWhile isSpaceChar).reverse ++ k.reverse := by
    calc l = l.reverse.reverse := (List.reverse_reverse l).symm
    _ = (k ++ l.reverse.dropWhile isSpaceChar).reverse := by rw [← hk]
    _ = (l.reverse.dropWhile isSpaceChar).reverse ++ k.reverse := List.reverse_append _ _
  rw [hl]
  exact head?_append_some _ h

theorem getLast?_stripRight_false (l : List Char) :
    ∀ c, (stripRight l).getLast? = some c → isSpaceChar c = false := by
  intro c h
  unfold stripRight at h
  rw [List.getLast?_reverse] at h
  exact head_dropWhile_false _ _ c h

theorem head?_pyStripList_false (l : List Char) :
    ∀ c, (pyStripList l).head? = some c → isSpaceChar c = false := by
  intro c h
  unfold pyStripList at h
  exact head_dropWhile_false _ _ c (head?_stripRight_some h)

theorem getLast?_pyStripList_false (l : List Char) :
    ∀ c, (pyStripList l).getLast? = some c → isSpaceChar c = false := by
  intro c h
  unfold pyStripList at h
  exact getLast?_stripRight_false _ c h

theorem mem_stripRight {c : Char} {l : List Char} (h : c ∈ stripRight l) : c ∈ l := by
  unfold stripRight at h
  rw [List.mem_reverse] at h
  exact List.mem_reverse.mp (List.dropWhile_subset _ h)

theorem mem_pyStripList {c : Char} {l : List Char} (h : c ∈ pyStripList l) : c ∈ l :=
  List.dropWhile_subset _ (mem_stripRight h)

theorem pyLowerList_eq_self (l : List Char) (h : ∀ c ∈ l, c.toLower = c) :
    pyLowerList l = l := by
  unfold pyLowerList
  calc l.map Char.toLower = l.map id := List.map_congr_left h
  _ = l := List.map_id l

theorem mem_pyLowerList_fixed (u : List Char) : ∀ c ∈ pyLowerList u, c.toLower = c := by
  intro c hc
  unfold pyLowerList at hc
  obtain ⟨a, _, rfl⟩ := List.mem_map.mp hc
  exact toLower_idem a

theorem normalize_idem (s : String) :
    pyLower (pyStrip (pyLower (pyStrip s))) = pyLower (pyStrip s) := by
  unfold pyLower pyStrip
  congr 1
  have hstrip : pyStripList (pyLowerList (pyStripList s.data)) =
      pyLowerList (pyStripList s.data) := by
    apply pyStripList_eq_self
    · intro c hc
      unfold pyLowerList at hc
      rw [List.head?_map] at hc
      cases hu : (pyStripList s.data).head? with
      | none => rw [hu] at hc; simp at hc
      | some a =>
        rw [hu] at hc
        have hc' : a.toLower = c := by simpa using hc
        subst hc'
        rw [isSpaceChar_toLower]
        exact head?_pyStripList_false _ a hu
    · intro c hc
      unfold pyLowerList at hc
      rw [List.getLast?_map] at hc
      cases hu : (pyStripList s.data).getLast? with
      | none => rw [hu] at hc; simp at hc
      | some a =>
        rw [hu] at hc
        have hc' : a.toLower = c := by simpa using hc
        subst hc'
        rw [isSpaceChar_toLower]
        exact getLast?_pyStripList_false _ a hu
  rw [hstrip]
  exact pyLowerList_eq_self _ (mem_pyLowerList_fixed _)

/-! Lemmas about substring containment. -/

theorem isPrefixOf_iff_exists (n l : List Char) :
    n.isPrefixOf l = true ↔ ∃ t, l = n ++ t := by
  induction n generalizing l with
  | nil => simp [List.isPrefixOf]
  | cons a n ih =>
    cases l with
    | nil =>
      simp only [List.isPrefixOf]
      constructor
      · intro h; exact absurd h (by simp)
      · rintro ⟨t, ht⟩; simp at ht
    | cons b l =>
      simp only [List.isPrefixOf, Bool.and_eq_true, beq_iff_eq]
      rw [ih l]
      constructor
      · rintro ⟨rfl, t, rfl⟩; exact ⟨t, rfl⟩
      · rintro ⟨t, ht⟩
        simp only [List.cons_append, List.cons.injEq] at ht
        exact ⟨ht.1.symm, t, ht.2⟩

theorem listContainsSub_iff (hay needle : List Char) :
    listContainsSub hay needle = true ↔ ∃ pre post, hay = pre ++ needle ++ post := by
  induction hay with
  | nil =>
    unfold listContainsSub
    rw [Bool.or_false, isPrefixOf_iff_exists]
    constructor
    · rintro ⟨t, ht⟩
      exact ⟨[], t, by simpa using ht⟩
    · rintro ⟨pre, post, h⟩
      have : pre = [] ∧ needle = [] ∧ post = [] := by
        constructor
        · cases pre with
          | nil => rfl
          | cons a t => simp at h
        · cases pre with
          | nil =>
            simp only [List.nil_append] at h
            constructor
            · cases needle with
              | nil => rfl
              | cons a t => simp at h
            · cases needle with
              | nil => simpa using h
              | cons a t => simp at h
          | cons a t => simp at h
      exact ⟨[], by rw [this.2.1]; rfl⟩
  | cons c cs ih =>
    unfold listContainsSub
    rw [Bool.or_eq_true, isPrefixOf_iff_exists, ih]
    constructor
    · rintro (⟨t, ht⟩ | ⟨pre, post, h⟩)
      · exact ⟨[], t, by simpa using ht⟩
      · exact ⟨c :: pre, post, by rw [h]; rfl⟩
    · rintro ⟨pre, post, h⟩
      cases pre with
      | nil =>
        exact Or.inl ⟨post, by simpa using h⟩
      | cons d pre =>
        simp only [List.cons_append, List.cons.injEq] at h
        exact Or.inr ⟨pre, post, h.2⟩

theorem listContainsSub_of_contains_super (hay n₁ n₂ : List Char)
    (hmid : ∃ a b, n₁ = a ++ n₂ ++ b) (h : listContainsSub hay n₁ = true) :
    listContainsSub hay n₂ = true := by
  rw [listContainsSub_iff] at h ⊢
  obtain ⟨pre, post, rfl⟩ := h
  obtain ⟨a, b, rfl⟩ := hmid
  exact ⟨pre ++ a, b ++ post, by simp⟩

theorem take_eq_isPrefixOf {l n : List Char} {k : Nat} (h : l.take k = n) :
    n.isPrefixOf l = true := by
  rw [isPrefixOf_iff_exists]
  exact ⟨l.drop k, by rw [← h, List.take_append_drop]⟩

theorem reSearchBrowse_eq_none (l : List Char)
    (h : listContainsSub l "browse".data = false) : reSearchBrowse l = none := by
  induction l with
  | nil => rfl
  | cons c cs ih =>
    have htail : listContainsSub cs "browse".data = false := by
      unfold listContainsSub at h
      exact (Bool.or_eq_false_iff.mp h).2
    have hhd : tryBrowseAt (c :: cs) = none := by
      unfold tryBrowseAt
      rw [if_neg]
      intro he
      have : listContainsSub (c :: cs) "browse".data = true := by
        unfold listContainsSub
        rw [take_eq_isPrefixOf he]
        rfl
      rw [this] at h
      exact Bool.true_eq_false.mp h
    unfold reSearchBrowse
    rw [hhd]
    exact ih htail

/-! Lemmas about the backtracking matchers. -/

theorem sStarThen_dot_sound :
    ∀ l g, sStarThen dotPlusGreedy l = some g →
      ∃ w c rest, l = w ++ c :: rest ∧ (∀ x ∈ w, isSpaceChar x = true) ∧ dotChar c = true := by
  intro l
  induction l with
  | nil => intro g h; exact absurd h (by simp [sStarThen, dotPlusGreedy])
  | cons a cs ih =>
    intro g h
    unfold sStarThen at h
    by_cases hs : isSpaceChar a
    · rw [if_pos hs] at h
      cases hrec : sStarThen dotPlusGreedy cs with
      | some r =>
        obtain ⟨w, c, rest, hdec, hw, hc⟩ := ih r hrec
        exact ⟨a :: w, c, rest, by rw [hdec]; rfl,
          fun x hx => by
            rcases List.mem_cons.mp hx with rfl | hx
            · exact hs
            · exact hw x hx, hc⟩
      | none =>
        rw [hrec] at h
        simp only [dotPlusGreedy] at h
        by_cases hd : dotChar a
        · exact ⟨[], a, cs, rfl, by simp, hd⟩
        · rw [if_neg hd] at h; exact absurd h (by simp)
    · rw [if_neg hs] at h
      simp only [dotPlusGreedy] at h
      by_cases hd : dotChar a
      · exact ⟨[], a, cs, rfl, by simp, hd⟩
      · rw [if_neg hd] at h; exact absurd h (by simp)

theorem sPlusThen_dot_sound {l : List Char} {g : List Char}
    (h : sPlusThen dotPlusGreedy l = some g) :
    ∃ w c rest, l = w ++ c :: rest ∧ w ≠ [] ∧
      (∀ x ∈ w, isSpaceChar x = true) ∧ dotChar c = true := by
  cases l with
  | nil => exact absurd h (by simp [sPlusThen])
  | cons a cs =>
    simp only [sPlusThen] at h
    by_cases hs : isSpaceChar a
    · rw [if_pos hs] at h
      obtain ⟨w, c, rest, hdec, hw, hc⟩ := sStarThen_dot_sound cs g h
      exact ⟨a :: w, c, rest, by rw [hdec]; rfl, by simp,
        fun x hx => by
          rcases List.mem_cons.mp hx with rfl | hx
          · exact hs
          · exact hw x hx, hc⟩
    · rw [if_neg hs] at h
      exact absurd h (by simp)

theorem sStarThen_dot_isSome (w : List Char) (c : Char) (rest : List Char)
    (hw : ∀ x ∈ w, isSpaceChar x = true) (hc : dotChar c = true) :
    (sStarThen dotPlusGreedy (w ++ c :: rest)).isSome = true := by
  induction w with
  | nil =>
    rw [List.nil_append]
    simp only [sStarThen]
    by_cases hs : isSpaceChar c
    · rw [if_pos hs]
      cases hrec : sStarThen dotPlusGreedy rest with
      | some r => rfl
      | none => simp [dotPlusGreedy, hc]
    · rw [if_neg hs]
      simp [dotPlusGreedy, hc]
  | cons a w ih =>
    have ha : isSpaceChar a = true := hw a (List.mem_cons_self a w)
    have ih' := ih (fun x hx => hw x (List.mem_cons_of_mem a hx))
    rw [List.cons_append]
    simp only [sStarThen]
    rw [if_pos ha]
    cases hrec : sStarThen dotPlusGreedy (w ++ c :: rest) with
    | some r => rfl
    | none => rw [hrec] at ih'; exact absurd ih' (by simp)

theorem sPlusThen_dot_isSome (w : List Char) (c : Char) (rest : List Char)
    (hne : w ≠ []) (hw : ∀ x ∈ w, isSpaceChar x = true) (hc : dotChar c = true) :
    (sPlusThen dotPlusGreedy (w ++ c :: rest)).isSome = true := by
  cases w with
  | nil => exact absurd rfl hne
  | cons a w =>
    rw [List.cons_append]
    simp only [sPlusThen]
    rw [if_pos (hw a (List.mem_cons_self a w))]
    exact sStarThen_dot_isSome w c rest (fun x hx => hw x (List.mem_cons_of_mem a hx)) hc

theorem reSearchBrowse_isSome_of_tryAt :
    ∀ (pre rest : List Char), (tryBrowseAt rest).isSome = true →
      (reSearchBrowse (pre ++ rest)).isSome = true := by
  intro pre
  induction pre with
  | nil =>
    intro rest h
    cases rest with
    | nil => exact absurd h (by simp [tryBrowseAt, sPlusThen])
    | cons a cs =>
      rw [List.nil_append]
      simp only [reSearchBrowse]
      cases ht : tryBrowseAt (a :: cs) with
      | some g => rfl
      | none => rw [ht] at h; exact absurd h (by simp)
  | cons a pre ih =>
    intro rest h
    rw [List.cons_append]
    simp only [reSearchBrowse]
    cases ht : tryBrowseAt (a :: (pre ++ rest)) with
    | some g => rfl
    | none => exact ih rest h

theorem tryBrowseAt_isSome (w : List Char) (c : Char) (post : List Char)
    (hne : w ≠ []) (hw : ∀ x ∈ w, isSpaceChar x = true) (hc : dotChar c = true) :
    (tryBrowseAt ("browse".data ++ w ++ c :: post)).isSome = true := by
  unfold tryBrowseAt
  rw [List.append_assoc]
  rw [show ("browse".data ++ (w ++ c :: post)).take 6 = "browse".data from
    List.take_left' rfl]
  rw [if_pos rfl]
  rw [show ("browse".data ++ (w ++ c :: post)).drop 6 = w ++ c :: post from
    List.drop_left' rfl]
  exact sPlusThen_dot_isSome w c post hne hw hc

theorem tryBrowseAt_sound {l : List Char} {g : List Char} (h : tryBrowseAt l = some g) :
    ∃ w c post, l = "browse".data ++ w ++ c :: post ∧ w ≠ [] ∧
      (∀ x ∈ w, isSpaceChar x = true) ∧ dotChar c = true := by
  unfold tryBrowseAt at h
  by_cases ht : l.take 6 = "browse".data
  · rw [if_pos ht] at h
    obtain ⟨w, c, rest, hdec, hne, hw, hc⟩ := sPlusThen_dot_sound h
    refine ⟨w, c, rest, ?_, hne, hw, hc⟩
    rw [List.append_assoc, ← hdec, ← ht, List.take_append_drop]
  · rw [if_neg ht] at h
    exact absurd h (by simp)

theorem reSearchBrowse_sound :
    ∀ l : List Char, (reSearchBrowse l).isSome = true →
      ∃ pre w c post, l = pre ++ "browse".data ++ w ++ c :: post ∧ w ≠ [] ∧
        (∀ x ∈ w, isSpaceChar x = true) ∧ dotChar c = true := by
  intro l
  induction l with
  | nil => intro h; exact absurd h (by simp [reSearchBrowse])
  | cons a cs ih =>
    intro h
    unfold reSearchBrowse at h
    cases ht : tryBrowseAt (a :: cs) with
    | some g =>
      obtain ⟨w, c, post, hdec, hne, hw, hc⟩ := tryBrowseAt_sound ht
      exact ⟨[], w, c, post, by simpa using hdec, hne, hw, hc⟩
    | none =>
      rw [ht] at h
      obtain ⟨pre, w, c, post, hdec, hne, hw, hc⟩ := ih h
      exact ⟨a :: pre, w, c, post, by rw [hdec]; rfl, hne, hw, hc⟩

/-- The two directions above, packaged: the browse pattern admits a match
exactly when `browse` followed by whitespace and a non-newline character
occurs somewhere in the input. -/
theorem reSearchBrowse_isSome_iff (l : List Char) :
    (reSearchBrowse l).isSome = true ↔
      ∃ pre w c post, l = pre ++ "browse".data ++ w ++ c :: post ∧ w ≠ [] ∧
        (∀ x ∈ w, isSpaceChar x = true) ∧ dotChar c = true := by
  constructor
  · exact reSearchBrowse_sound l
  · rintro ⟨pre, w, c, post, rfl, hne, hw, hc⟩
    rw [List.append_assoc, List.append_assoc]
    apply reSearchBrowse_isSome_of_tryAt
    have := tryBrowseAt_isSome w c post hne hw hc
    rwa [List.append_assoc] at this

/-! Generic first-match characterization of `List.find?`. -/

theorem find?_eq_get_of_first {α} (l : List α) (p : α → Bool) :
    ∀ (k : Nat) (hk : k < l.length), p (l.get ⟨k, hk⟩) = true →
      (∀ j (hj : j < k), p (l.get ⟨j, Nat.lt_trans hj hk⟩) = false) →
      l.find? p = some (l.get ⟨k, hk⟩) := by
  induction l with
  | nil => intro k hk; exact absurd hk (Nat.not_lt_zero k)
  | cons a t ih =>
    intro k hk hp hfirst
    cases k with
    | zero => exact List.find?_cons_of_pos _ hp
    | succ k =>
      have ha : p a = false := hfirst 0 (Nat.succ_pos k)
      rw [List.find?_cons_of_neg _ (by simp [ha])]
      exact ih k (Nat.lt_of_succ_lt_succ hk) hp
        (fun j hj => hfirst (j + 1) (Nat.succ_lt_succ hj))

/-! Prefix helpers for line-shape arguments. -/

theorem isPrefixOf_append_self (l t : List Char) : l.isPrefixOf (l ++ t) = true := by
  induction l with
  | nil => simp [List.isPrefixOf]
  | cons a l ih => simp [List.isPrefixOf, ih]

theorem isPrefixOf_append_false (n p x : List Char)
    (hlen : n.length ≤ p.length) (h : n.isPrefixOf p = false) :
    n.isPrefixOf (p ++ x) = false := by
  induction n generalizing p with
  | nil => exact absurd h (by simp [List.isPrefixOf])
  | cons a n ih =>
    cases p with
    | nil => exact absurd hlen (by simp)
    | cons b p =>
      rw [List.cons_append]
      simp only [List.isPrefixOf, Bool.and_eq_false_iff] at h ⊢
      rcases h with h | h
      · exact Or.inl h
      · exact Or.inr (ih p (Nat.le_of_succ_le_succ hlen) h)

/-! Dispatch helpers for the resolver's rule chain. -/

theorem contains_list_collections_false {t : String}
    (h : pyContains t "collections" = false) :
    pyContains t "list collections" = false := by
  cases hx : pyContains t "list collections" with
  | false => rfl
  | true =>
    exfalso
    have : listContainsSub t.data "collections".data = true :=
      listContainsSub_of_contains_super t.data "list collections".data "collections".data
        ⟨"list ".data, [], by decide⟩ hx
    rw [show listContainsSub t.data "collections".data = pyContains t "collections" from rfl,
      h] at this
    exact Bool.true_eq_false.mp this.symm

theorem resolveIntent_browse_rule (collections : List Collection) (raw : String)
    (h1 : helpLiterals (pyLower (pyStrip raw)) = false)
    (h2 : pyContains (pyLower (pyStrip raw)) "collections" = false)
    {r : List Char} (hb : reSearchBrowse (pyLower (pyStrip raw)).data = some r) :
    resolveIntent collections raw = .Browse (pyStrip ⟨r⟩) := by
  have hlist := contains_list_collections_false h2
  simp only [resolveIntent, h1, h2, hlist, hb, Bool.or_self, Bool.false_eq_true, if_false]

theorem resolveIntent_display_name_rule (collections : List Collection) (raw : String)
    (h1 : helpLiterals (pyLower (pyStrip raw)) = false)
    (h2 : pyContains (pyLower (pyStrip raw)) "collections" = false)
    (h3 : reSearchBrowse (pyLower (pyStrip raw)).data = none)
    {c : Collection}
    (h4 : (collections.take 10).find?
        (collectionNameMatches (pyLower (pyStrip raw))) = some c) :
    resolveIntent collections raw = .Browse (pyLstripSlash c.alias_) := by
  have hlist := contains_list_collections_false h2
  simp only [resolveIntent, h1, h2, hlist, h3, h4, Bool.or_self, Bool.false_eq_true, if_false]

theorem resolveIntent_search_in_rule (collections : List Collection) (raw : String)
    (h1 : helpLiterals (pyLower (pyStrip raw)) = false)
    (h2 : pyContains (pyLower (pyStrip raw)) "collections" = false)
    (h3 : reSearchBrowse (pyLower (pyStrip raw)).data = none)
    (h4 : (collections.take 10).find?
        (collectionNameMatches (pyLower (pyStrip raw))) = none)
    {g1 g2 : List Char}
    (h5 : reSearchIn (pyLower (pyStrip raw)).data = some (g1, g2)) :
    resolveIntent collections raw = .SearchInCollection (pyStrip ⟨g1⟩) (pyStrip ⟨g2⟩) := by
  have hlist := contains_list_collections_false h2
  simp only [resolveIntent, h1, h2, hlist, h3, h4, h5, Bool.or_self, Bool.false_eq_true,
    if_false]

/-- Claim C6 counterexample: the input `"x browse y"` does not start with
the keyword `browse`, yet the browse rule fires (the source uses
`re.search`, which matches anywhere), resolving to `Browse "y"` instead
of leaving the rule untriggered. -/
theorem C6_counterexample :
    pyStartsWith "x browse y" "browse" = false ∧
      resolveIntent [] "x browse y" = Intent.Browse "y" := by
  constructor
  · decide
  · decide

/-- Claim C6 (amended): the browse rule fires exactly for inputs whose
trimmed lowercased form contains `browse` followed by at least one
whitespace character and a further non-newline character anywhere (not
only at the start); when the help and collections rules did not match,
such an input resolves to `Browse rest` with `rest` the stripped capture
of the leftmost match. -/
theorem C6_browse_rule_fires_anywhere (collections : List Collection) (s : String)
    (h1 : helpLiterals (pyLower (pyStrip s)) = false)
    (h2 : pyContains (pyLower (pyStrip s)) "collections" = false) :
    (∀ r, reSearchBrowse (pyLower (pyStrip s)).data = some r →
      resolveIntent collections s = .Browse (pyStrip ⟨r⟩))
    ∧ ((reSearchBrowse (pyLower (pyStrip s)).data).isSome = true ↔
      ∃ pre w c post, (pyLower (pyStrip s)).data = pre ++ "browse".data ++ w ++ c :: post ∧
        w ≠ [] ∧ (∀ x ∈ w, isSpaceChar x = true) ∧ dotChar c = true) :=
  ⟨fun _ hb => resolveIntent_browse_rule collections s h1 h2 hb,
   reSearchBrowse_isSome_iff _⟩

/-- Witness for C6: the amended theorem applied to the concrete input
`"browse x"`. -/
theorem C6_witness : resolveIntent [] "browse x" = Intent.Browse "x" := by
  have h := (C6_browse_rule_fires_anywhere [] "browse x" (by decide) (by decide)).1
    ['x'] (by decide)
  exact h.trans (by decide)

/-- Claim C7 counterexample: the display name `"el"` of the first loaded
collection occurs (lowercased) inside the input `"help"`, yet the
resolver yields `Help`, not `Browse "x"`: the help rule precedes the
display-name rule. -/
theorem C7_counterexample :
    pyContains "help" "el" = true ∧
      resolveIntent [⟨"x", "el", ""⟩] "help" = Intent.Help := by
  constructor
  · decide
  · decide

/-- Claim C7 (amended): when the help, collections-substring and browse
rules did not match, an input containing the lowercased nonempty display
name of one of the first 10 loaded collections resolves to `Browse` of
the slash-stripped alias of the first such collection in load order. -/
theorem C7_display_name_rule (collections : List Collection) (s : String) (k : Nat)
    (h1 : helpLiterals (pyLower (pyStrip s)) = false)
    (h2 : pyContains (pyLower (pyStrip s)) "collections" = false)
    (h3 : pyContains (pyLower (pyStrip s)) "browse" = false)
    (hk : k < (collections.take 10).length)
    (hmatch : collectionNameMatches (pyLower (pyStrip s))
        ((collections.take 10).get ⟨k, hk⟩) = true)
    (hfirst : ∀ j (hj : j < k), collectionNameMatches (pyLower (pyStrip s))
        ((collections.take 10).get ⟨j, Nat.lt_trans hj hk⟩) = false) :
    resolveIntent collections s =
      .Browse (pyLstripSlash ((collections.take 10).get ⟨k, hk⟩).alias_) := by
  apply resolveIntent_display_name_rule collections s h1 h2
  · exact reSearchBrowse_eq_none _ h3
  · exact find?_eq_get_of_first _ _ k hk hmatch hfirst

/-- Witness for C7: the amended theorem applied to one collection named
`"zed"` and the input `"find zed"`. -/
theorem C7_witness : resolveIntent [⟨"a", "zed", ""⟩] "find zed" = Intent.Browse "a" := by
  have h := C7_display_name_rule [⟨"a", "zed", ""⟩] "find zed" 0 (by decide) (by decide)
    (by decide) (by decide) (by decide) (fun j hj => absurd hj (Nat.not_lt_zero j))
  exact h.trans (by decide)

/-! Lookup characterization for claim C2. -/

theorem find?_key_of_nodup (lookup : List (String × String)) (n v : String)
    (hnodup : (lookup.map Prod.fst).Nodup) (hmem : (n, v) ∈ lookup) :
    lookup.find? (fun kv => kv.1 = n) = some (n, v) := by
  induction lookup with
  | nil => simp at hmem
  | cons kv t ih =>
    rw [List.map_cons, List.nodup_cons] at hnodup
    rcases List.mem_cons.mp hmem with rfl | hmem'
    · exact List.find?_cons_of_pos _ (by simp)
    · by_cases hkey : kv.1 = n
      · exfalso
        apply hnodup.1
        rw [hkey]
        exact List.mem_map.mpr ⟨(n, v), hmem', rfl⟩
      · rw [List.find?_cons_of_neg _ (by simp [hkey])]
        exact ih hnodup.2 hmem'

/-- Claim C2: `find_collection_alias` lowercases and trims the input;
it returns the mapped identifier on an exact key match (stated for a
lookup with distinct keys, as a Python dict guarantees); otherwise it
returns the identifier of the first key, in insertion order, such that
the input occurs in the key or the key occurs in the input; and it
returns `none` when no key matches either way. -/
theorem C2_find_collection_alias_characterization
    (lookup : List (String × String)) (nameQ : String) :
    (∀ v, (lookup.map Prod.fst).Nodup → (pyStrip (pyLower nameQ), v) ∈ lookup →
      find_collection_alias lookup nameQ = some v)
    ∧ (∀ (k : Nat) (hk : k < lookup.length),
        (∀ kv ∈ lookup, kv.1 ≠ pyStrip (pyLower nameQ)) →
        partialKeyMatch (pyStrip (pyLower nameQ)) (lookup.get ⟨k, hk⟩).1 = true →
        (∀ j (hj : j < k),
          partialKeyMatch (pyStrip (pyLower nameQ)) (lookup.get ⟨j, Nat.lt_trans hj hk⟩).1
            = false) →
        find_collection_alias lookup nameQ = some (lookup.get ⟨k, hk⟩).2)
    ∧ ((∀ kv ∈ lookup, kv.1 ≠ pyStrip (pyLower nameQ) ∧
          partialKeyMatch (pyStrip (pyLower nameQ)) kv.1 = false) →
        find_collection_alias lookup nameQ = none) := by
  refine ⟨?_, ?_, ?_⟩
  · intro v hnodup hmem
    have hfind := find?_key_of_nodup lookup (pyStrip (pyLower nameQ)) v hnodup hmem
    simp only [find_collection_alias, hfind]
  · intro k hk hne hmatch hfirst
    have hexact : lookup.find? (fun kv => kv.1 = pyStrip (pyLower nameQ)) = none :=
      List.find?_eq_none.mpr (fun kv hkv => by simp [hne kv hkv])
    have hpart := find?_eq_get_of_first lookup
      (fun kv => partialKeyMatch (pyStrip (pyLower nameQ)) kv.1) k hk hmatch hfirst
    simp only [find_collection_alias, hexact, hpart]
    rfl
  · intro hno
    have hexact : lookup.find? (fun kv => kv.1 = pyStrip (pyLower nameQ)) = none :=
      List.find?_eq_none.mpr (fun kv hkv => by simp [(hno kv hkv).1])
    have hpart : lookup.find?
        (fun kv => partialKeyMatch (pyStrip (pyLower nameQ)) kv.1) = none :=
      List.find?_eq_none.mpr (fun kv hkv => by simp [(hno kv hkv).2])
    simp only [find_collection_alias, hexact, hpart]
    rfl

/-- Witness for C2: exact-match branch on a one-entry lookup, with the
input needing both lowercasing and trimming. -/
theorem C2_witness : find_collection_alias [("a", "A1")] " A " = some "A1" :=
  (C2_find_collection_alias_characterization [("a", "A1")] " A ").1 "A1"
    (by decide) (by decide)

/-! Computation lemmas for the search-in matcher on inputs of the shape
`search <terms> in <collection>`. -/

theorem dotChar_of_nonspace (c : Char) (h : isSpaceChar c = false) : dotChar c = true := by
  by_cases hc : c = '\n'
  · subst hc
    exact absurd h (by decide)
  · simp [dotChar, hc]

theorem head?_nonspace_of_all {l : List Char} (h : ∀ c ∈ l, isSpaceChar c = false) :
    ∀ c, l.head? = some c → isSpaceChar c = false := by
  intro c hc
  cases l with
  | nil => simp at hc
  | cons a t =>
    simp only [List.head?_cons, Option.some.injEq] at hc
    subst hc
    exact h a (List.mem_cons_self a t)

theorem mem_of_getLast?_eq {l : List Char} {c : Char} (h : l.getLast? = some c) : c ∈ l := by
  induction l with
  | nil => simp at h
  | cons a t ih =>
    cases t with
    | nil =>
      simp only [List.getLast?_singleton, Option.some.injEq] at h
      subst h
      exact List.mem_cons_self a []
    | cons b t' =>
      rw [List.getLast?_cons_cons] at h
      exact List.mem_cons_of_mem _ (ih h)

theorem getLast?_nonspace_of_all {l : List Char} (h : ∀ c ∈ l, isSpaceChar c = false) :
    ∀ c, l.getLast? = some c → isSpaceChar c = false :=
  fun c hc => h c (mem_of_getLast?_eq hc)

theorem sStarThen_nonspace_head {α} {k : List Char → Option α} {z : Char} {rest : List Char}
    (hz : isSpaceChar z = false) : sStarThen k (z :: rest) = k (z :: rest) := by
  simp [sStarThen, hz]

theorem sPlusThen_nonspace_none {α} {k : List Char → Option α} {z : Char} {rest : List Char}
    (hz : isSpaceChar z = false) : sPlusThen k (z :: rest) = none := by
  simp [sPlusThen, hz]

theorem dotPlusGreedy_full (Y : List Char) (hne : Y ≠ [])
    (hY : ∀ c ∈ Y, dotChar c = true) : dotPlusGreedy Y = some Y := by
  cases Y with
  | nil => exact absurd rfl hne
  | cons c ys =>
    simp only [dotPlusGreedy]
    rw [if_pos (hY c (List.mem_cons_self c ys))]
    congr 1
    exact List.takeWhile_eq_self_iff.mpr hY

theorem inTail_computes (Y : List Char) (hne : Y ≠ [])
    (hYhead : ∀ c, Y.head? = some c → isSpaceChar c = false)
    (hYdot : ∀ c ∈ Y, dotChar c = true) :
    inTailMatch ('i' :: 'n' :: ' ' :: Y) = some Y := by
  unfold inTailMatch
  rw [if_pos (by rfl)]
  show sPlusThen dotPlusGreedy (' ' :: Y) = some Y
  cases Y with
  | nil => exact absurd rfl hne
  | cons c ys =>
    simp only [sPlusThen]
    rw [if_pos (by decide)]
    rw [sStarThen_nonspace_head (hYhead c rfl)]
    exact dotPlusGreedy_full (c :: ys) (by simp) hYdot

theorem lazy_run_search_in (Y : List Char) (hYne : Y ≠ [])
    (hYhead : ∀ c, Y.head? = some c → isSpaceChar c = false)
    (hYdot : ∀ c ∈ Y, dotChar c = true) :
    ∀ (X acc : List Char), X ≠ [] → (∀ c ∈ X, isSpaceChar c = false) →
      lazyDotPlusThen (sPlusThen inTailMatch) acc
        (X ++ ' ' :: 'i' :: 'n' :: ' ' :: Y) = some (acc ++ X, Y) := by
  intro X
  induction X with
  | nil => intro acc h; exact absurd rfl h
  | cons x xs ih =>
    intro acc _ hX
    rw [List.cons_append]
    simp only [lazyDotPlusThen]
    rw [if_pos (dotChar_of_nonspace x (hX x (List.mem_cons_self x xs)))]
    cases xs with
    | nil =>
      rw [List.nil_append]
      have hk : sPlusThen inTailMatch (' ' :: 'i' :: 'n' :: ' ' :: Y) = some Y := by
        simp only [sPlusThen]
        rw [if_pos (by decide)]
        rw [sStarThen_nonspace_head (by decide : isSpaceChar 'i' = false)]
        exact inTail_computes Y hYne hYhead hYdot
      simp only [hk]
    | cons z zs =>
      have hk : sPlusThen inTailMatch ((z :: zs) ++ ' ' :: 'i' :: 'n' :: ' ' :: Y) = none := by
        rw [List.cons_append]
        exact sPlusThen_nonspace_none
          (hX z (List.mem_cons_of_mem _ (List.mem_cons_self z zs)))
      simp only [hk]
      have hrec := ih (acc ++ [x]) (by simp)
        (fun c hc => hX c (List.mem_cons_of_mem _ hc))
      simp only [hrec]
      simp [List.append_assoc]

theorem searchInTail_computes (X Y : List Char) (hXne : X ≠ [])
    (hX : ∀ c ∈ X, isSpaceChar c = false) (hYne : Y ≠ [])
    (hYhead : ∀ c, Y.head? = some c → isSpaceChar c = false)
    (hYdot : ∀ c ∈ Y, dotChar c = true) :
    searchInTail (' ' :: (X ++ ' ' :: 'i' :: 'n' :: ' ' :: Y)) = some (X, Y) := by
  unfold searchInTail
  simp only [sPlusThen]
  rw [if_pos (by decide)]
  cases X with
  | nil => exact absurd rfl hXne
  | cons x xs =>
    rw [List.cons_append]
    rw [sStarThen_nonspace_head (hX x (List.mem_cons_self x xs))]
    rw [← List.cons_append]
    have := lazy_run_search_in Y hYne hYhead hYdot (x :: xs) [] (by simp) hX
    rw [this]
    rfl

theorem trySearchInAt_computes (X Y : List Char) (hXne : X ≠ [])
    (hX : ∀ c ∈ X, isSpaceChar c = false) (hYne : Y ≠ [])
    (hYhead : ∀ c, Y.head? = some c → isSpaceChar c = false)
    (hYdot : ∀ c ∈ Y, dotChar c = true) :
    trySearchInAt ("search".data ++ ' ' :: (X ++ ' ' :: 'i' :: 'n' :: ' ' :: Y)) =
      some (X, Y) := by
  unfold trySearchInAt
  rw [show ("search".data ++ ' ' :: (X ++ ' ' :: 'i' :: 'n' :: ' ' :: Y)).take 6 =
    "search".data from List.take_left' rfl]
  rw [if_pos rfl]
  rw [show ("search".data ++ ' ' :: (X ++ ' ' :: 'i' :: 'n' :: ' ' :: Y)).drop 6 =
    ' ' :: (X ++ ' ' :: 'i' :: 'n' :: ' ' :: Y) from List.drop_left' rfl]
  exact searchInTail_computes X Y hXne hX hYne hYhead hYdot

theorem reSearchIn_head {l : List Char} {g : List Char × List Char}
    (h : trySearchInAt l = some g) : reSearchIn l = some g := by
  cases l with
  | nil =>
    rw [show trySearchInAt [] = none from by decide] at h
    exact absurd h (by simp)
  | cons c cs => simp only [reSearchIn, h]

/-- Claim C1 counterexample: `"search x in collections"` is an input of
the form `search <terms> in <collection>` (the pattern matches with
groups `x` and `collections`), yet the resolver yields
`ListCollections`: the collections-substring rule precedes the
search-in-collection rule. -/
theorem C1_counterexample :
    reSearchIn (pyLower (pyStrip "search x in collections")).data =
        some ("x".data, "collections".data)
      ∧ resolveIntent [] "search x in collections" = Intent.ListCollections := by
  constructor
  · decide
  · decide

/-- Claim C1 (amended): for every input of the form
`search <terms> in <collection>` — with nonempty whitespace-free
lowercase terms, and a nonempty lowercase collection part with no
newline and no leading or trailing whitespace — that the earlier rules
do not intercept (no help literal, no `collections` substring, no
`browse` keyword match, no display-name hit), the resolver yields
`SearchInCollection(terms, collection)`; in particular such inputs never
fall through to the generic `search ` prefix rule (`SearchAll`). -/
theorem C1_search_in_collection_rule (collections : List Collection) (s : String)
    (X Y : List Char)
    (hs : s.data = "search".data ++ ' ' :: (X ++ ' ' :: 'i' :: 'n' :: ' ' :: Y))
    (hXne : X ≠ []) (hX : ∀ c ∈ X, isSpaceChar c = false)
    (hXl : ∀ c ∈ X, c.toLower = c)
    (hYne : Y ≠ []) (hYdot : ∀ c ∈ Y, dotChar c = true)
    (hYl : ∀ c ∈ Y, c.toLower = c)
    (hYhead : ∀ c, Y.head? = some c → isSpaceChar c = false)
    (hYlast : ∀ c, Y.getLast? = some c → isSpaceChar c = false)
    (hNoCol : pyContains s "collections" = false)
    (hNoBrowse : pyContains s "browse" = false)
    (hNames : (collections.take 10).find? (collectionNameMatches s) = none) :
    resolveIntent collections s = Intent.SearchInCollection ⟨X⟩ ⟨Y⟩ := by
  have hdata_cons : s.data = 's' :: ("earch".data ++ ' ' :: (X ++ ' ' :: 'i' :: 'n' :: ' ' :: Y)) := by
    rw [hs]; rfl
  -- the input is already stripped: nonspace first and last characters
  have hstrip : pyStripList s.data = s.data := by
    apply pyStripList_eq_self
    · intro c hc
      rw [hdata_cons] at hc
      simp only [List.head?_cons, Option.some.injEq] at hc
      subst hc
      decide
    · intro c hc
      rw [hs] at hc
      rw [show "search".data ++ ' ' :: (X ++ ' ' :: 'i' :: 'n' :: ' ' :: Y) =
        ("search".data ++ ' ' :: (X ++ [' ', 'i', 'n', ' '])) ++ Y by
          simp [List.append_assoc]] at hc
      rw [List.getLast?_append_of_ne_nil _ hYne] at hc
      exact hYlast c hc
  -- the input is already lowercase
  have hlower : pyLowerList s.data = s.data := by
    apply pyLowerList_eq_self
    intro c hc
    rw [hs] at hc
    rcases List.mem_append.mp hc with hc | hc
    · exact (by decide : ∀ x ∈ "search".data, x.toLower = x) c hc
    · rcases List.mem_cons.mp hc with rfl | hc
      · decide
      · rcases List.mem_append.mp hc with hc | hc
        · exact hXl c hc
        · rcases List.mem_cons.mp hc with rfl | hc
          · decide
          · rcases List.mem_cons.mp hc with rfl | hc
            · decide
            · rcases List.mem_cons.mp hc with rfl | hc
              · decide
              · rcases List.mem_cons.mp hc with rfl | hc
                · decide
                · exact hYl c hc
  have hnorm : pyLower (pyStrip s) = s := by
    unfold pyLower pyStrip
    rw [show (⟨pyStripList s.data⟩ : String).data = pyStripList s.data from rfl]
    rw [hstrip, hlower]
  -- the help rule does not fire: the input starts with 's'
  have hne1 : s ≠ "help" := by
    intro he
    have hd := congrArg String.data he
    rw [hdata_cons, show "help".data = 'h' :: "elp".data from rfl] at hd
    injection hd with h1 _
    exact absurd h1 (by decide)
  have hne2 : s ≠ "?" := by
    intro he
    have hd := congrArg String.data he
    rw [hdata_cons, show "?".data = '?' :: [] from rfl] at hd
    injection hd with h1 _
    exact absurd h1 (by decide)
  have hne3 : s ≠ "commands" := by
    intro he
    have hd := congrArg String.data he
    rw [hdata_cons, show "commands".data = 'c' :: "ommands".data from rfl] at hd
    injection hd with h1 _
    exact absurd h1 (by decide)
  have hhelp : helpLiterals (pyLower (pyStrip s)) = false := by
    rw [hnorm]
    unfold helpLiterals
    simp [hne1, hne2, hne3]
  have hsearchin : reSearchIn (pyLower (pyStrip s)).data = some (X, Y) := by
    rw [hnorm, hs]
    exact reSearchIn_head (trySearchInAt_computes X Y hXne hX hYne hYhead hYdot)
  have hres := resolveIntent_search_in_rule collections s hhelp
    (by rwa [hnorm]) (by rw [hnorm]; exact reSearchBrowse_eq_none _ hNoBrowse)
    (by rwa [hnorm]) hsearchin
  rw [hres]
  have hXfix : pyStrip (⟨X⟩ : String) = ⟨X⟩ := by
    unfold pyStrip
    rw [show ((⟨X⟩ : String).data) = X from rfl]
    rw [pyStripList_eq_self X (head?_nonspace_of_all hX) (getLast?_nonspace_of_all hX)]
  have hYfix : pyStrip (⟨Y⟩ : String) = ⟨Y⟩ := by
    unfold pyStrip
    rw [show ((⟨Y⟩ : String).data) = Y from rfl]
    rw [pyStripList_eq_self Y hYhead hYlast]
  rw [hXfix, hYfix]

/-- Witness for C1: the amended theorem applied to the concrete input
`"search x in y"`. -/
theorem C1_witness :
    resolveIntent [] "search x in y" = Intent.SearchInCollection "x" "y" := by
  have h := C1_search_in_collection_rule [] "search x in y" "x".data "y".data
    (by decide) (by decide) (by decide) (by decide) (by decide) (by decide) (by decide)
    (by decide) (by decide) (by decide) (by decide) (by decide)
  exact h.trans (by decide)

/-! Membership lemmas: every character of a capture group comes from the
input that was matched. -/

theorem pyLower_idem (v : String) : pyLower (pyLower v) = pyLower v := by
  unfold pyLower
  congr 1
  exact pyLowerList_eq_self _ (mem_pyLowerList_fixed _)

theorem dotPlusGreedy_subset :
    ∀ l g, dotPlusGreedy l = some g → ∀ c ∈ g, c ∈ l := by
  intro l g h c hc
  cases l with
  | nil => simp [dotPlusGreedy] at h
  | cons a cs =>
    simp only [dotPlusGreedy] at h
    by_cases hd : dotChar a
    · rw [if_pos hd] at h
      injection h with h
      subst h
      exact List.takeWhile_subset _ hc
    · rw [if_neg hd] at h
      exact absurd h (by simp)

theorem sStarThen_split {α} (k : List Char → Option α) :
    ∀ l x, sStarThen k l = some x → ∃ u v, l = u ++ v ∧ k v = some x := by
  intro l
  induction l with
  | nil => intro x h; exact ⟨[], [], rfl, h⟩
  | cons a cs ih =>
    intro x h
    simp only [sStarThen] at h
    by_cases hs : isSpaceChar a
    · rw [if_pos hs] at h
      cases hrec : sStarThen k cs with
      | some r =>
        rw [hrec] at h
        injection h with h
        rw [h] at hrec
        obtain ⟨u, v, hcs, hk⟩ := ih x hrec
        exact ⟨a :: u, v, by rw [hcs]; rfl, hk⟩
      | none =>
        rw [hrec] at h
        exact ⟨[], a :: cs, rfl, h⟩
    · rw [if_neg hs] at h
      exact ⟨[], a :: cs, rfl, h⟩

theorem sPlusThen_split {α} (k : List Char → Option α) :
    ∀ l x, sPlusThen k l = some x → ∃ u v, l = u ++ v ∧ k v = some x := by
  intro l x h
  cases l with
  | nil => simp [sPlusThen] at h
  | cons a cs =>
    simp only [sPlusThen] at h
    by_cases hs : isSpaceChar a
    · rw [if_pos hs] at h
      obtain ⟨u, v, hcs, hk⟩ := sStarThen_split k cs x h
      exact ⟨a :: u, v, by rw [hcs]; rfl, hk⟩
    · rw [if_neg hs] at h
      exact absurd h (by simp)

theorem lazyDotPlusThen_split {α} (k : List Char → Option α) :
    ∀ l acc g r, lazyDotPlusThen k acc l = some (g, r) →
      ∃ u v, l = u ++ v ∧ g = acc ++ u ∧ k v = some r := by
  intro l
  induction l with
  | nil => intro acc g r h; simp [lazyDotPlusThen] at h
  | cons a cs ih =>
    intro acc g r h
    simp only [lazyDotPlusThen] at h
    by_cases hd : dotChar a
    · rw [if_pos hd] at h
      cases hk : k cs with
      | some r' =>
        rw [hk] at h
        injection h with h
        rw [Prod.mk.injEq] at h
        obtain ⟨h1, h2⟩ := h
        refine ⟨[a], cs, rfl, h1.symm, ?_⟩
        rw [← h2]
        exact hk
      | none =>
        rw [hk] at h
        obtain ⟨u, v, hcs, hg, hkv⟩ := ih (acc ++ [a]) g r h
        refine ⟨a :: u, v, by rw [hcs]; rfl, ?_, hkv⟩
        rw [hg, List.append_assoc]
        rfl
    · rw [if_neg hd] at h
      exact absurd h (by simp)

theorem inTailMatch_subset :
    ∀ l g, inTailMatch l = some g → ∀ c ∈ g, c ∈ l := by
  intro l g h c hc
  unfold inTailMatch at h
  by_cases ht : l.take 2 = "in".data
  · rw [if_pos ht] at h
    obtain ⟨u, v, hdec, hk⟩ := sPlusThen_split _ _ _ h
    apply List.drop_subset 2 l
    rw [hdec]
    exact List.mem_append_right u (dotPlusGreedy_subset v g hk c hc)
  · rw [if_neg ht] at h
    exact absurd h (by simp)

theorem searchInTail_subset :
    ∀ l g r, searchInTail l = some (g, r) → (∀ c ∈ g, c ∈ l) ∧ (∀ c ∈ r, c ∈ l) := by
  intro l g r h
  unfold searchInTail at h
  obtain ⟨u0, v0, hdec0, hk0⟩ := sPlusThen_split _ _ _ h
  obtain ⟨u1, v1, hdec1, hg, hk1⟩ := lazyDotPlusThen_split _ _ _ _ _ hk0
  obtain ⟨u2, v2, hdec2, hk2⟩ := sPlusThen_split _ _ _ hk1
  constructor
  · intro c hc
    rw [hg] at hc
    rw [List.nil_append] at hc
    rw [hdec0, hdec1]
    exact List.mem_append_right u0 (List.mem_append_left v1 hc)
  · intro c hc
    rw [hdec0, hdec1, hdec2]
    refine List.mem_append_right u0 (List.mem_append_right u1
      (List.mem_append_right u2 ?_))
    exact inTailMatch_subset v2 r hk2 c hc

theorem trySearchInAt_subset :
    ∀ l g r, trySearchInAt l = some (g, r) → (∀ c ∈ g, c ∈ l) ∧ (∀ c ∈ r, c ∈ l) := by
  intro l g r h
  unfold trySearchInAt at h
  by_cases ht : l.take 6 = "search".data
  · rw [if_pos ht] at h
    obtain ⟨hg, hr⟩ := searchInTail_subset _ g r h
    exact ⟨fun c hc => List.drop_subset _ _ (hg c hc),
      fun c hc => List.drop_subset _ _ (hr c hc)⟩
  · rw [if_neg ht] at h
    exact absurd h (by simp)

theorem reSearchIn_subset :
    ∀ l g r, reSearchIn l = some (g, r) → (∀ c ∈ g, c ∈ l) ∧ (∀ c ∈ r, c ∈ l) := by
  intro l
  induction l with
  | nil => intro g r h; simp [reSearchIn] at h
  | cons a cs ih =>
    intro g r h
    simp only [reSearchIn] at h
    cases ht : trySearchInAt (a :: cs) with
    | some p =>
      rw [ht] at h
      injection h with h
      rw [h] at ht
      exact trySearchInAt_subset _ g r ht
    | none =>
      rw [ht] at h
      obtain ⟨hg, hr⟩ := ih g r h
      exact ⟨fun c hc => List.mem_cons_of_mem a (hg c hc),
        fun c hc => List.mem_cons_of_mem a (hr c hc)⟩

theorem itemTail_subset :
    ∀ l g r, itemTail l = some (g, r) → (∀ c ∈ g, c ∈ l) ∧ (∀ c ∈ r, c ∈ l) := by
  intro l g r h
  unfold itemTail at h
  obtain ⟨u, v, hdec, hk⟩ := sPlusThen_split _ _ _ h
  simp only [] at hk
  by_cases h1 : (v.takeWhile wordChar).isEmpty
  · rw [if_pos h1] at hk
    exact absurd hk (by simp)
  · rw [if_neg h1] at hk
    obtain ⟨u2, v2, hdec2, hk2⟩ := sPlusThen_split _ _ _ hk
    by_cases h2 : (v2.takeWhile wordChar).isEmpty
    · rw [if_pos h2] at hk2
      exact absurd hk2 (by simp)
    · rw [if_neg h2] at hk2
      injection hk2 with hk2
      rw [Prod.mk.injEq] at hk2
      obtain ⟨hg1, hg2⟩ := hk2
      constructor
      · intro c hc
        rw [← hg1] at hc
        rw [hdec]
        exact List.mem_append_right u (List.takeWhile_subset _ hc)
      · intro c hc
        rw [← hg2] at hc
        rw [hdec]
        refine List.mem_append_right u ?_
        have hv2 : c ∈ v2 := List.takeWhile_subset _ hc
        have : c ∈ v.drop (v.takeWhile wordChar).length := by
          rw [hdec2]
          exact List.mem_append_right u2 hv2
        exact List.drop_subset _ _ this

theorem tryItemAt_subset :
    ∀ l g r, tryItemAt l = some (g, r) → (∀ c ∈ g, c ∈ l) ∧ (∀ c ∈ r, c ∈ l) := by
  intro l g r h
  unfold tryItemAt at h
  by_cases ht : l.take 4 = "item".data
  · rw [if_pos ht] at h
    obtain ⟨hg, hr⟩ := itemTail_subset _ g r h
    exact ⟨fun c hc => List.drop_subset _ _ (hg c hc),
      fun c hc => List.drop_subset _ _ (hr c hc)⟩
  · rw [if_neg ht] at h
    exact absurd h (by simp)

theorem reSearchItem_subset :
    ∀ l g r, reSearchItem l = some (g, r) → (∀ c ∈ g, c ∈ l) ∧ (∀ c ∈ r, c ∈ l) := by
  intro l
  induction l with
  | nil => intro g r h; simp [reSearchItem] at h
  | cons a cs ih =>
    intro g r h
    simp only [reSearchItem] at h
    cases ht : tryItemAt (a :: cs) with
    | some p =>
      rw [ht] at h
      injection h with h
      rw [h] at ht
      exact tryItemAt_subset _ g r ht
    | none =>
      rw [ht] at h
      obtain ⟨hg, hr⟩ := ih g r h
      exact ⟨fun c hc => List.mem_cons_of_mem a (hg c hc),
        fun c hc => List.mem_cons_of_mem a (hr c hc)⟩

theorem pyLower_fix_of_subset (X : List Char) (t : List Char)
    (ht : ∀ c ∈ t, c.toLower = c) (hsub : ∀ c ∈ X, c ∈ t) :
    pyLower ⟨X⟩ = ⟨X⟩ := by
  unfold pyLower
  congr 1
  exact pyLowerList_eq_self X (fun c hc => ht c (hsub c hc))

theorem pyLower_strip_fix_of_subset (X : List Char) (t : List Char)
    (ht : ∀ c ∈ t, c.toLower = c) (hsub : ∀ c ∈ X, c ∈ t) :
    pyLower (pyStrip ⟨X⟩) = pyStrip ⟨X⟩ := by
  unfold pyStrip
  exact pyLower_fix_of_subset _ t ht (fun c hc => hsub c (mem_pyStripList hc))

/-! Normalization and argument lemmas for claim C10. -/

theorem resolveIntent_norm (collections : List Collection) (s : String) :
    resolveIntent collections (pyLower (pyStrip s)) = resolveIntent collections s := by
  unfold resolveIntent
  rw [normalize_idem]

theorem find_collection_alias_lower (lookup : List (String × String)) (n : String) :
    find_collection_alias lookup (pyLower n) = find_collection_alias lookup n := by
  unfold find_collection_alias
  rw [pyLower_idem]

theorem resolveIntent_args_lower (collections : List Collection) (s : String) :
    (∀ terms coll, resolveIntent collections s = .SearchInCollection terms coll →
      pyLower terms = terms ∧ pyLower coll = coll)
    ∧ (∀ terms, resolveIntent collections s = .SearchAll terms → pyLower terms = terms)
    ∧ (∀ ca iid, resolveIntent collections s = .ItemDetail ca iid →
      pyLower ca = ca ∧ pyLower iid = iid) := by
  have hfix : ∀ c ∈ (pyLower (pyStrip s)).data, c.toLower = c := mem_pyLowerList_fixed _
  unfold resolveIntent
  set t := pyLower (pyStrip s) with hts
  by_cases h1 : helpLiterals t
  · rw [if_pos h1]
    exact ⟨fun a b h => by simp at h, fun a h => by simp at h, fun a b h => by simp at h⟩
  · rw [if_neg h1]
    by_cases h2 : (pyContains t "collections" || pyContains t "list collections") = true
    · rw [if_pos h2]
      exact ⟨fun a b h => by simp at h, fun a h => by simp at h, fun a b h => by simp at h⟩
    · rw [if_neg h2]
      cases hb : reSearchBrowse t.data with
      | some rest =>
        exact ⟨fun a b h => by simp at h, fun a h => by simp at h,
          fun a b h => by simp at h⟩
      | none =>
        cases hf : (collections.take 10).find? (collectionNameMatches t) with
        | some c =>
          exact ⟨fun a b h => by simp at h, fun a h => by simp at h,
            fun a b h => by simp at h⟩
        | none =>
          cases hsi : reSearchIn t.data with
          | some p =>
            obtain ⟨g1, g2⟩ := p
            refine ⟨fun terms coll h => ?_, fun a h => by simp at h,
              fun a b h => by simp at h⟩
            injection h with e1 e2
            rw [← e1, ← e2]
            obtain ⟨hg1, hg2⟩ := reSearchIn_subset t.data g1 g2 hsi
            exact ⟨pyLower_strip_fix_of_subset g1 t.data hfix hg1,
              pyLower_strip_fix_of_subset g2 t.data hfix hg2⟩
          | none =>
            by_cases hsw : pyStartsWith t "search " = true
            · rw [if_pos hsw]
              refine ⟨fun a b h => by simp at h, fun terms h => ?_,
                fun a b h => by simp at h⟩
              injection h with e1
              rw [← e1]
              exact pyLower_strip_fix_of_subset _ t.data hfix
                (fun c hc => List.drop_subset _ _ hc)
            · rw [if_neg hsw]
              cases hit : reSearchItem t.data with
              | some p =>
                obtain ⟨g1, g2⟩ := p
                refine ⟨fun a b h => by simp at h, fun a h => by simp at h,
                  fun ca iid h => ?_⟩
                injection h with e1 e2
                rw [← e1, ← e2]
                obtain ⟨hg1, hg2⟩ := reSearchItem_subset t.data g1 g2 hit
                exact ⟨pyLower_fix_of_subset g1 t.data hfix hg1,
                  pyLower_fix_of_subset g2 t.data hfix hg2⟩
              | none =>
                refine ⟨fun a b h => by simp at h, fun terms h => ?_,
                  fun a b h => by simp at h⟩
                injection h with e1
                rw [← e1, hts]
                exact pyLower_idem (pyStrip s)

/-- Claim C10: the whole query pipeline is invariant under trimming and
lowercasing the input, and every argument the resolver extracts from the
input (search terms, collection name of the search-in rule, item and
collection ids) is already lowercase; collection names are additionally
lowercased by `find_collection_alias` before lookup. -/
theorem C10_pipeline_normalization (api : ApiModel) (collections : List Collection)
    (lookup : List (String × String)) (s : String) :
    process_query api collections lookup s =
      process_query api collections lookup (pyLower (pyStrip s))
    ∧ (∀ terms coll, resolveIntent collections s = .SearchInCollection terms coll →
        pyLower terms = terms ∧ pyLower coll = coll)
    ∧ (∀ terms, resolveIntent collections s = .SearchAll terms → pyLower terms = terms)
    ∧ (∀ ca iid, resolveIntent collections s = .ItemDetail ca iid →
        pyLower ca = ca ∧ pyLower iid = iid)
    ∧ (∀ n, find_collection_alias lookup n = find_collection_alias lookup (pyLower n)) := by
  obtain ⟨ha, hb, hc⟩ := resolveIntent_args_lower collections s
  refine ⟨?_, ha, hb, hc, fun n => (find_collection_alias_lower lookup n).symm⟩
  unfold process_query
  rw [resolveIntent_norm]

/-- Witness for C10: pipeline invariance on a concrete mixed-case input
with surrounding whitespace, plus the extracted-argument conjunct on a
concrete search-in query. -/
theorem C10_witness :
    process_query apiNull [] [] "  SEARCH A in B  " =
      process_query apiNull [] [] (pyLower (pyStrip "  SEARCH A in B  "))
    ∧ (pyLower "a" = "a" ∧ pyLower "b" = "b") :=
  ⟨(C10_pipeline_normalization apiNull [] [] "  SEARCH A in B  ").1,
   (C10_pipeline_normalization apiNull [] [] "search a in b").2.1 "a" "b" (by decide)⟩

/-! Line-shape lemmas for the record-cap observable. -/

theorem marker_url_line (u : String) : urlLineMarker ("   🔗 " ++ u) = true := by
  unfold urlLineMarker
  rw [String.data_append]
  exact isPrefixOf_append_self _ _

theorem marker_false_cat (p u : String) (hlen : ("   🔗 ").data.length ≤ p.data.length)
    (hp : ("   🔗 ").data.isPrefixOf p.data = false) : urlLineMarker (p ++ u) = false := by
  unfold urlLineMarker
  rw [String.data_append]
  exact isPrefixOf_append_false _ _ _ hlen hp

theorem marker_title_line_false (i : Nat) (hi : 1 ≤ i) (hi10 : i ≤ 10) (u : String) :
    urlLineMarker (toString i ++ ". **" ++ u ++ "**") = false := by
  rw [show toString i ++ ". **" ++ u ++ "**" = (toString i ++ ". **") ++ (u ++ "**") from
    String.append_assoc (toString i ++ ". **") u "**"]
  exact marker_false_cat _ _ (by interval_cases i <;> decide)
    (by interval_cases i <;> decide)

theorem fsrRecordLines_countP :
    ∀ (rs : List SearchRecord) (i : Nat), 1 ≤ i → i + rs.length ≤ 11 →
      (fsrRecordLines i rs).countP urlLineMarker = rs.length := by
  intro rs
  induction rs with
  | nil => intro i _ _; rfl
  | cons r rs ih =>
    intro i hi hle
    rw [List.length_cons] at hle
    have hi10 : i ≤ 10 := by omega
    simp only [fsrRecordLines]
    rw [List.countP_append, List.countP_append, List.countP_append]
    rw [ih (i + 1) (by omega) (by omega)]
    have h1 : List.countP urlLineMarker
        [toString i ++ ". **" ++ r.title.getD "Untitled" ++ "**"] = 0 := by
      rw [List.countP_cons, List.countP_nil, marker_title_line_false i hi hi10]
      simp
    have h2 : List.countP urlLineMarker
        (if (r.date.getD "Date unknown") != "" && (r.date.getD "Date unknown") != "Date unknown"
         then ["   📅 " ++ r.date.getD "Date unknown"] else []) = 0 := by
      split
      · rw [List.countP_cons, List.countP_nil,
          marker_false_cat "   📅 " _ (by decide) (by decide)]
        simp
      · rfl
    have h3 : List.countP urlLineMarker
        ["   🔗 " ++ itemUrl (r.collection.getD "") (r.pointer.getD ""), ""] = 1 := by
      rw [List.countP_cons, List.countP_cons, List.countP_nil, marker_url_line]
      rw [show urlLineMarker "" = false from by decide]
      simp
    rw [h1, h2, h3, List.length_cons]
    omega

theorem fsrRecordLines_ne_nil (i : Nat) (r : SearchRecord) (rs : List SearchRecord) :
    fsrRecordLines i (r :: rs) ≠ [] := by
  simp only [fsrRecordLines]
  intro h
  rw [List.append_eq_nil] at h
  obtain ⟨h1, _⟩ := h
  rw [List.append_eq_nil] at h1
  obtain ⟨h2, _⟩ := h1
  rw [List.append_eq_nil] at h2
  exact absurd h2.1 (by simp)

theorem fsrRecordLines_getLast :
    ∀ (rs : List SearchRecord) (r : SearchRecord) (i : Nat),
      (fsrRecordLines i (r :: rs)).getLast? = some "" := by
  intro rs
  induction rs with
  | nil =>
    intro r i
    simp only [fsrRecordLines]
    rw [List.append_nil]
    rw [List.getLast?_append_of_ne_nil _ (by simp :
      (["   🔗 " ++ itemUrl (r.collection.getD "") (r.pointer.getD ""), ""] : List String) ≠ [])]
    rfl
  | cons r2 rs2 ih =>
    intro r i
    rw [show fsrRecordLines i (r :: r2 :: rs2) =
      ([toString i ++ ". **" ++ r.title.getD "Untitled" ++ "**"] ++
        (if (r.date.getD "Date unknown") != "" && (r.date.getD "Date unknown") != "Date unknown"
         then ["   📅 " ++ r.date.getD "Date unknown"] else []) ++
        ["   🔗 " ++ itemUrl (r.collection.getD "") (r.pointer.getD ""), ""]) ++
        fsrRecordLines (i + 1) (r2 :: rs2) from rfl]
    rw [List.getLast?_append_of_ne_nil _ (fsrRecordLines_ne_nil (i + 1) r2 rs2)]
    exact ih r2 (i + 1)

theorem showingLine_ne_empty (n : Nat) (tot : Int) : showingLine n tot ≠ "" := by
  intro h
  have hd := congrArg String.data h
  unfold showingLine at hd
  rw [String.data_append, String.data_append, String.data_append,
    show "📊 Showing ".data = '📊' :: " Showing ".data from rfl] at hd
  simp at hd

/-- Claim C4 counterexample: a payload with an empty records sequence
but pager total 5 renders the no-results message with no truncation
summary, although the pager total (5) exceeds the rendered count (0) —
the claimed `iff` fails for payloads outside the record-rendering
path. -/
theorem C4_counterexample :
    format_search_results resEmptyTotal "" = "📭 No items found matching your search criteria."
    ∧ resEmptyTotal.pagerTotal = some 5
    ∧ pyContains (format_search_results resEmptyTotal "") "Showing" = false := by
  refine ⟨by decide, by decide, by decide⟩

/-- Claim C4 (amended): for every non-error payload with a nonempty
records sequence, `format_search_results` renders exactly
`min 10 |records|` records (one link line each) even when the payload
contains more, and the output ends with the `Showing X of Y` truncation
summary exactly when the pager total exceeds the rendered count. -/
theorem C4_format_search_results_cap_and_summary
    (results : SearchResult) (collectionName : String)
    (h1 : results.error = none) (h2 : results.records ≠ []) :
    format_search_results results collectionName =
      String.intercalate "\n" (format_search_results_lines results collectionName)
    ∧ (format_search_results_lines results collectionName).countP urlLineMarker =
        min 10 results.records.length
    ∧ ∀ tot, results.pagerTotal = some tot →
        ((format_search_results_lines results collectionName).getLast? =
            some (showingLine (results.records.take 10).length tot) ↔
          tot > ((results.records.take 10).length : Int)) := by
  have hne : results.records.isEmpty = false := by
    cases hres : results.records with
    | nil => exact absurd hres h2
    | cons a t => rfl
  refine ⟨?_, ?_, ?_⟩
  · unfold format_search_results
    rw [h1, hne]
    simp
  · simp only [format_search_results_lines]
    rw [List.countP_append, List.countP_append]
    have hh : List.countP urlLineMarker
        (if collectionName != "" then ["🔍 Search results from '" ++ collectionName ++ "':\n"]
         else ["🔍 Search results:\n"]) = 0 := by
      split
      · rw [List.countP_cons, List.countP_nil]
        rw [show "🔍 Search results from '" ++ collectionName ++ "':\n" =
          "🔍 Search results from '" ++ (collectionName ++ "':\n") from
            String.append_assoc _ _ _]
        rw [marker_false_cat "🔍 Search results from '" _ (by decide) (by decide)]
        simp
      · rw [List.countP_cons, List.countP_nil]
        rw [show urlLineMarker "🔍 Search results:\n" = false from by decide]
        simp
    have htail : List.countP urlLineMarker
        (if (results.pagerTotal.getD ((results.records.take 10).length : Int)) >
            ((results.records.take 10).length : Int)
         then [showingLine (results.records.take 10).length
            (results.pagerTotal.getD ((results.records.take 10).length : Int))]
         else []) = 0 := by
      split
      · rw [List.countP_cons, List.countP_nil]
        unfold showingLine
        rw [show "📊 Showing " ++ toString (results.records.take 10).length ++ " of " ++
            toString (results.pagerTotal.getD ((results.records.take 10).length : Int)) =
          "📊 Showing " ++ (toString (results.records.take 10).length ++ (" of " ++
            toString (results.pagerTotal.getD ((results.records.take 10).length : Int)))) from by
          rw [String.append_assoc, String.append_assoc]]
        rw [marker_false_cat "📊 Showing " _ (by decide) (by decide)]
        simp
      · rfl
    rw [hh, htail]
    have hcount := fsrRecordLines_countP (results.records.take 10) 1 (by omega)
      (by rw [List.length_take]; omega)
    rw [hcount, List.length_take]
    omega
  · intro tot htot
    simp only [format_search_results_lines]
    rw [htot]
    simp only [Option.getD_some]
    by_cases hgt : tot > ((results.records.take 10).length : Int)
    · rw [if_pos hgt]
      rw [List.getLast?_concat]
      exact iff_of_true rfl hgt
    · rw [if_neg hgt]
      rw [List.append_nil]
      cases hres : results.records with
      | nil => exact absurd hres h2
      | cons a t =>
        have hbody : (fsrRecordLines 1 ((a :: t).take 10)).getLast? = some "" := by
          rw [show (a :: t).take 10 = a :: t.take 9 from rfl]
          exact fsrRecordLines_getLast (t.take 9) a 1
        rw [List.getLast?_append_of_ne_nil _ (by
          rw [show (a :: t).take 10 = a :: t.take 9 from rfl]
          exact fsrRecordLines_ne_nil 1 a (t.take 9))]
        rw [hbody]
        constructor
        · intro hsome
          exfalso
          have : "" = showingLine ((a :: t).take 10).length tot := by
            injection hsome
          exact showingLine_ne_empty _ _ this.symm
        · intro hc
          rw [← hres] at hc
          exact absurd hc hgt

/-- Witness for C4: the amended theorem applied to a concrete two-record
payload whose pager total is 5. -/
theorem C4_witness :
    format_search_results resW "c" =
      String.intercalate "\n" (format_search_results_lines resW "c")
    ∧ (format_search_results_lines resW "c").countP urlLineMarker =
        min 10 resW.records.length
    ∧ ∀ tot, resW.pagerTotal = some tot →
        ((format_search_results_lines resW "c").getLast? =
            some (showingLine (resW.records.take 10).length tot) ↔
          tot > ((resW.records.take 10).length : Int)) :=
  C4_format_search_results_cap_and_summary resW "c" rfl (by decide)

/-! Per-field chunk equalities between the source item formatter and the
claim-side renderer. -/

theorem title_chunk_eq (item : List (String × String)) :
    (resolveField item ["title"]).getD "Untitled" = dictGetD item "title" "Untitled" := by
  unfold resolveField dictGetD dictGet?
  cases h : item.find? (fun kv => kv.1 = "title") with
  | some kv => simp [List.findSome?_cons, h]
  | none => simp [List.findSome?_cons, h]

theorem chunk_one_gen (item : List (String × String)) (k : String) (f : String → String) :
    (if dictGetD item k "" != "" then [f (dictGetD item k "")] else []) =
    (match resolveField item [k] with
     | some v => if v != "" then [f v] else []
     | none => []) := by
  unfold resolveField dictGetD dictGet?
  cases h : item.find? (fun kv => kv.1 = k) with
  | some kv => simp [List.findSome?_cons, h]
  | none => simp [List.findSome?_cons, h]

theorem chunk_two_gen (item : List (String × String)) (k1 k2 : String) (f : String → String) :
    (if (match dictGet? item k1 with
         | some v => v
         | none => dictGetD item k2 "") != ""
     then [f (match dictGet? item k1 with
         | some v => v
         | none => dictGetD item k2 "")] else []) =
    (match resolveField item [k1, k2] with
     | some v => if v != "" then [f v] else []
     | none => []) := by
  unfold resolveField dictGetD dictGet?
  cases h1 : item.find? (fun kv => kv.1 = k1) with
  | some kv => simp [List.findSome?_cons, h1]
  | none =>
    cases h2 : item.find? (fun kv => kv.1 = k2) with
    | some kv => simp [List.findSome?_cons, h1, h2]
    | none => simp [List.findSome?_cons, h1, h2]

theorem format_item_details_lines_eq_spec (item : List (String × String)) (alias0 : String) :
    format_item_details_lines item alias0 =
      "📄 **Item Details:**\n" :: (specFieldLines item ++ specViewItemLines item alias0) := by
  simp only [specFieldLines, specFieldKeys, List.flatMap_cons, List.flatMap_nil,
    List.append_nil]
  simp only [if_true]
  rw [if_neg (by decide : ¬("**Date:** " = "**Title:** ")),
    if_neg (by decide : ¬("**Creator:** " = "**Title:** ")),
    if_neg (by decide : ¬("**Subject:** " = "**Title:** ")),
    if_neg (by decide : ¬("**Description:** " = "**Title:** ")),
    if_neg (by decide : ¬("**Format:** " = "**Title:** ")),
    if_neg (by decide : ¬("**Rights:** " = "**Title:** "))]
  simp only [format_item_details_lines, optFieldLine, specViewItemLines]
  rw [title_chunk_eq item]
  rw [chunk_one_gen item "date" (fun v => "**Date:** " ++ v)]
  rw [chunk_two_gen item "creato" "creator" (fun v => "**Creator:** " ++ v)]
  rw [chunk_two_gen item "subjec" "subject" (fun v => "**Subject:** " ++ v)]
  rw [chunk_two_gen item "descri" "description" (fun v => "**Description:** " ++ v)]
  rw [chunk_two_gen item "format" "type" (fun v => "**Format:** " ++ v)]
  rw [chunk_one_gen item "rights" (fun v => "**Rights:** " ++ v)]
  rw [chunk_two_gen item "dmrecord" "pointer"
    (fun p => "\n🔗 **View Item:** " ++ itemUrl alias0 p)]
  simp [List.append_assoc]

/-- Claim C5 counterexample: on an item payload with no `title` key, the
formatter still renders a title line (with the placeholder `Untitled`):
an absent title is not omitted from the output. -/
theorem C5_counterexample :
    dictGet? ([] : List (String × String)) "title" = none
    ∧ "**Title:** Untitled" ∈ format_item_details_lines [] "c"
    ∧ pyContains (format_item_details [] "c") "**Title:** Untitled" = true := by
  refine ⟨rfl, by decide, by decide⟩

/-- Claim C5 (amended): for every non-error item payload,
`format_item_details` renders the fields in the fixed order title, date,
creator, subject, description, format, rights, resolving each from its
short-code key before its long-name key; fields other than the title
are omitted entirely when absent (or empty), while an absent title
renders with the placeholder `Untitled`; a view-item link (dmrecord
preferred over pointer) follows. -/
theorem C5_format_item_details_field_order (item : List (String × String)) (alias0 : String)
    (herr : dictGet? item "error" = none) :
    format_item_details item alias0 =
      String.intercalate "\n" (format_item_details_lines item alias0)
    ∧ format_item_details_lines item alias0 =
      "📄 **Item Details:**\n" :: (specFieldLines item ++ specViewItemLines item alias0) := by
  constructor
  · unfold format_item_details
    rw [herr]
    rfl
  · exact format_item_details_lines_eq_spec item alias0

/-- Witness for C5: the amended theorem applied to a concrete payload in
which the empty short-code key `creato` masks a nonempty `creator`. -/
theorem C5_witness :
    format_item_details itemW "c" =
      String.intercalate "\n" (format_item_details_lines itemW "c")
    ∧ format_item_details_lines itemW "c" =
      "📄 **Item Details:**\n" :: (specFieldLines itemW ++ specViewItemLines itemW "c") :=
  C5_format_item_details_field_order itemW "c" rfl

/-! Slash-stripping lemmas for claim C9. -/

theorem lstripSlash_no_slash (a : String) : pyStartsWith (pyLstripSlash a) "/" = false := by
  unfold pyStartsWith pyLstripSlash
  cases hd : a.data.dropWhile (fun c => decide (c = '/')) with
  | nil => decide
  | cons h t =>
    have hh := head_dropWhile_false (fun c => decide (c = '/')) a.data h (by rw [hd]; rfl)
    have hne : ¬(h = '/') := by simpa using hh
    have hbeq : (('/' : Char) == h) = false := beq_eq_false_iff_ne.mpr (Ne.symm hne)
    rw [show "/".data = ['/'] from rfl]
    show (['/'] : List Char).isPrefixOf (h :: t) = false
    simp [List.isPrefixOf, hbeq]

theorem mem_insertAssoc_val {m : List (String × String)} {k v : String}
    {kv : String × String} (h : kv ∈ insertAssoc m k v) : kv.2 = v ∨ kv ∈ m := by
  unfold insertAssoc at h
  by_cases hf : ((m.find? (fun kv => kv.1 = k)).isSome : Bool)
  · rw [if_pos hf] at h
    obtain ⟨kv0, hkv0, heq⟩ := List.mem_map.mp h
    by_cases hk : kv0.1 = k
    · rw [if_pos hk] at heq
      left
      rw [← heq]
    · rw [if_neg hk] at heq
      right
      rw [← heq]
      exact hkv0
  · rw [if_neg hf] at h
    rcases List.mem_append.mp h with h | h
    · exact Or.inr h
    · left
      simp only [List.mem_singleton] at h
      rw [h]

theorem initialize_lookup_aux :
    ∀ (data : List Collection) (m : List (String × String)),
      (∀ kv ∈ m, pyStartsWith kv.2 "/" = false) →
      ∀ kv ∈ data.foldl (fun m c =>
        let al := pyLstripSlash c.alias_
        if al != "" then insertAssoc (insertAssoc m (pyLower al) al) (pyLower c.name) al
        else m) m,
      pyStartsWith kv.2 "/" = false := by
  intro data
  induction data with
  | nil => intro m hm kv hkv; exact hm kv hkv
  | cons c ds ih =>
    intro m hm kv hkv
    rw [List.foldl_cons] at hkv
    refine ih _ ?_ kv hkv
    intro kv2 hkv2
    simp only [] at hkv2
    by_cases hal : (pyLstripSlash c.alias_ != "" : Bool)
    · rw [if_pos hal] at hkv2
      rcases mem_insertAssoc_val hkv2 with hv | hkv3
      · rw [hv]
        exact lstripSlash_no_slash c.alias_
      · rcases mem_insertAssoc_val hkv3 with hv | hkv4
        · rw [hv]
          exact lstripSlash_no_slash c.alias_
        · exact hm kv2 hkv4
    · rw [if_neg hal] at hkv2
      exact hm kv2 hkv2

theorem find_collection_alias_mem {lookup : List (String × String)} {nameQ v : String}
    (h : find_collection_alias lookup nameQ = some v) : ∃ kv ∈ lookup, kv.2 = v := by
  simp only [find_collection_alias] at h
  cases he : lookup.find? (fun kv => kv.1 = pyStrip (pyLower nameQ)) with
  | some kv =>
    rw [he] at h
    injection h with h
    exact ⟨kv, List.mem_of_find?_eq_some he, h⟩
  | none =>
    rw [he] at h
    cases hp : lookup.find? (fun kv => partialKeyMatch (pyStrip (pyLower nameQ)) kv.1) with
    | some kv =>
      rw [hp] at h
      injection h with h
      exact ⟨kv, List.mem_of_find?_eq_some hp, h⟩
    | none =>
      rw [hp] at h
      exact absurd h (by simp)

/-- Claim C9 counterexample: with a loaded collection whose raw alias is
`"/a"`, `search_all_collections` queries the API with the unstripped
alias and renders `Collection: /a` (leading separator intact) in its
output, while the record URL on the same output uses the stripped alias:
the invariant does not extend to the stored collection list that
search-all uses. -/
theorem C9_counterexample :
    pyContains (search_all_collections apiTag [⟨"/a", "n", ""⟩] "q") "Collection: /a" = true
    ∧ pyContains (search_all_collections apiTag [⟨"/a", "n", ""⟩] "q")
        "collection/a/id/1" = true := by
  refine ⟨by decide, by decide⟩

/-- Claim C9 (amended): every value stored in the collection lookup at
initialization — hence every identifier returned by
`find_collection_alias` over that lookup — has its leading slashes
stripped, and the identifier embedded in a rendered item URL is the
slash-stripped alias; the stored collection list itself, however, is
kept as loaded, and search-all queries the API with the raw alias. -/
theorem C9_identifier_slash_invariant :
    (∀ (data : List Collection), ∀ kv ∈ initialize_lookup data,
      pyStartsWith kv.2 "/" = false)
    ∧ (∀ (data : List Collection) (nameQ v : String),
        find_collection_alias (initialize_lookup data) nameQ = some v →
        pyStartsWith v "/" = false)
    ∧ (∀ a p : String, pyStartsWith (pyLstripSlash a) "/" = false ∧
        itemUrl a p = "https://digitalcollections.aucegypt.edu/digital/collection/" ++
          pyLstripSlash a ++ "/id/" ++ p) := by
  have hlook : ∀ (data : List Collection), ∀ kv ∈ initialize_lookup data,
      pyStartsWith kv.2 "/" = false := by
    intro data kv hkv
    exact initialize_lookup_aux data [] (by simp) kv hkv
  refine ⟨hlook, ?_, fun a p => ⟨lstripSlash_no_slash a, rfl⟩⟩
  intro data nameQ v h
  obtain ⟨kv, hkv, hv⟩ := find_collection_alias_mem h
  rw [← hv]
  exact hlook data kv hkv

/-- Witness for C9: the resolved identifier of the collection loaded
with raw alias `"/a"` is the stripped `"a"`. -/
theorem C9_witness :
    find_collection_alias (initialize_lookup [⟨"/a", "n", ""⟩]) "n" = some "a"
    ∧ pyStartsWith "a" "/" = false := by
  refine ⟨by decide, ?_⟩
  exact C9_identifier_slash_invariant.2.1 [⟨"/a", "n", ""⟩] "n" "a" (by decide)

/-! Behavioral lemmas for `search_all_collections` (claim C3). -/

theorem search_all_accum_ext (api₁ api₂ : ApiModel) (collections : List Collection)
    (terms : String)
    (hagree : ∀ c ∈ collections.take 5, c.alias_ ≠ "" →
      api₁.search c.alias_ terms 5 = api₂.search c.alias_ terms 5) :
    search_all_accum api₁ collections terms = search_all_accum api₂ collections terms := by
  unfold search_all_accum
  have key : ∀ (l : List Collection) (acc : List SearchRecord × List String),
      (∀ c ∈ l, c.alias_ ≠ "" → api₁.search c.alias_ terms 5 = api₂.search c.alias_ terms 5) →
      l.foldl (fun acc c =>
        if c.alias_ != "" then
          let results := api₁.search c.alias_ terms 5
          if !results.records.isEmpty then (acc.1 ++ results.records, acc.2 ++ [c.name])
          else acc
        else acc) acc =
      l.foldl (fun acc c =>
        if c.alias_ != "" then
          let results := api₂.search c.alias_ terms 5
          if !results.records.isEmpty then (acc.1 ++ results.records, acc.2 ++ [c.name])
          else acc
        else acc) acc := by
    intro l
    induction l with
    | nil => intro acc _; rfl
    | cons c ds ih =>
      intro acc hag
      rw [List.foldl_cons, List.foldl_cons]
      have hstep :
          (if c.alias_ != "" then
            let results := api₁.search c.alias_ terms 5
            if !results.records.isEmpty then (acc.1 ++ results.records, acc.2 ++ [c.name])
            else acc
          else acc) =
          (if c.alias_ != "" then
            let results := api₂.search c.alias_ terms 5
            if !results.records.isEmpty then (acc.1 ++ results.records, acc.2 ++ [c.name])
            else acc
          else acc) := by
        by_cases hal : (c.alias_ != "") = true
        · rw [if_pos hal, if_pos hal]
          rw [hag c (List.mem_cons_self c ds) (by simpa using hal)]
        · rw [if_neg hal, if_neg hal]
      rw [hstep]
      exact ih _ (fun c2 h2 => hag c2 (List.mem_cons_of_mem _ h2))
  exact key (collections.take 5) ([], []) hagree

theorem search_all_collections_ext (api₁ api₂ : ApiModel) (collections : List Collection)
    (terms : String)
    (hagree : ∀ c ∈ collections.take 5, c.alias_ ≠ "" →
      api₁.search c.alias_ terms 5 = api₂.search c.alias_ terms 5) :
    search_all_collections api₁ collections terms =
      search_all_collections api₂ collections terms := by
  simp only [search_all_collections]
  rw [search_all_accum_ext api₁ api₂ collections terms hagree]

theorem search_all_dispatch (api : ApiModel) (collections : List Collection)
    (terms : String) (hc : collections ≠ []) :
    ((search_all_accum api collections terms).1 = [] →
      search_all_collections api collections terms = noResultsAcrossMessage terms)
    ∧ ((search_all_accum api collections terms).1 ≠ [] →
      search_all_collections api collections terms =
        String.intercalate "\n"
          (search_all_lines terms (search_all_accum api collections terms).1
            (search_all_accum api collections terms).2)) := by
  have hce : collections.isEmpty = false := by
    cases hres : collections with
    | nil => exact absurd hres hc
    | cons a t => rfl
  constructor
  · intro h
    simp only [search_all_collections, hce, Bool.false_eq_true, if_false]
    rw [show (search_all_accum api collections terms).1.isEmpty = true from by
      rw [h]; rfl]
    simp
  · intro h
    have hne : (search_all_accum api collections terms).1.isEmpty = false := by
      cases hres : (search_all_accum api collections terms).1 with
      | nil => exact absurd hres h
      | cons a t => rfl
    simp only [search_all_collections, hce, Bool.false_eq_true, if_false]
    rw [hne]
    simp

theorem sacRecordLines_countP :
    ∀ (rs : List SearchRecord) (i : Nat), 1 ≤ i → i + rs.length ≤ 11 →
      (sacRecordLines i rs).countP urlLineMarker = rs.length := by
  intro rs
  induction rs with
  | nil => intro i _ _; rfl
  | cons r rs ih =>
    intro i hi hle
    rw [List.length_cons] at hle
    have hi10 : i ≤ 10 := by omega
    simp only [sacRecordLines]
    rw [List.countP_append, List.countP_append, List.countP_append]
    rw [ih (i + 1) (by omega) (by omega)]
    have h1 : List.countP urlLineMarker
        [toString i ++ ". **" ++ r.title.getD "Untitled" ++ "**"] = 0 := by
      rw [List.countP_cons, List.countP_nil, marker_title_line_false i hi hi10]
      simp
    have h2 : List.countP urlLineMarker
        (if (r.date.getD "") != "" then ["   📅 " ++ r.date.getD ""] else []) = 0 := by
      split
      · rw [List.countP_cons, List.countP_nil,
          marker_false_cat "   📅 " _ (by decide) (by decide)]
        simp
      · rfl
    have h3 : List.countP urlLineMarker
        ["   📚 Collection: " ++ r.collection.getD "",
          "   🔗 " ++ itemUrl (r.collection.getD "") (r.pointer.getD ""), ""] = 1 := by
      rw [List.countP_cons, List.countP_cons, List.countP_cons, List.countP_nil,
        marker_url_line, marker_false_cat "   📚 Collection: " _ (by decide) (by decide)]
      rw [show urlLineMarker "" = false from by decide]
      simp
    rw [h1, h2, h3, List.length_cons]
    omega

theorem search_all_lines_countP (terms : String) (allRecords : List SearchRecord)
    (names : List String) :
    (search_all_lines terms allRecords names).countP urlLineMarker =
      min 10 allRecords.length := by
  simp only [search_all_lines]
  rw [List.countP_append, List.countP_append, List.countP_append]
  have hh : List.countP urlLineMarker
      ["🔍 Search results for '" ++ terms ++ "' across collections:\n"] = 0 := by
    rw [List.countP_cons, List.countP_nil]
    rw [show "🔍 Search results for '" ++ terms ++ "' across collections:\n" =
      "🔍 Search results for '" ++ (terms ++ "' across collections:\n") from
      String.append_assoc _ _ _]
    rw [marker_false_cat "🔍 Search results for '" _ (by decide) (by decide)]
    simp
  have hs : List.countP urlLineMarker [searchedInLine names] = 0 := by
    rw [List.countP_cons, List.countP_nil]
    unfold searchedInLine
    rw [marker_false_cat "📊 Searched in: " _ (by decide) (by decide)]
    simp
  have hm : List.countP urlLineMarker
      (if names.length > 3 then [moreCollectionsLine names] else []) = 0 := by
    split
    · rw [List.countP_cons, List.countP_nil]
      unfold moreCollectionsLine
      rw [show " and " ++ toString (names.length - 3) ++ " more collections" =
        " and " ++ (toString (names.length - 3) ++ " more collections") from
        String.append_assoc _ _ _]
      rw [marker_false_cat " and " _ (by decide) (by decide)]
      simp
    · rfl
  rw [hh, hs, hm]
  rw [sacRecordLines_countP (allRecords.take 10) 1 (by omega)
    (by rw [List.length_take]; omega)]
  rw [List.length_take]
  omega

theorem search_all_lines_getLast (terms : String) (allRecords : List SearchRecord)
    (names : List String) :
    (search_all_lines terms allRecords names).getLast? =
      some (if names.length > 3 then moreCollectionsLine names else searchedInLine names) := by
  simp only [search_all_lines]
  by_cases h3 : names.length > 3
  · rw [if_pos h3, if_pos h3]
    exact List.getLast?_concat _
  · rw [if_neg h3, if_neg h3]
    rw [List.append_nil]
    exact List.getLast?_concat _

/-- Claim C3 counterexample: both loaded collections (`alpha` with alias
`a`, `beta` with alias `b`) are queried, but only `alpha` returns a
record; the `Searched in:` trailer names only `alpha` — the collections
queried without results are not named (and not counted). -/
theorem C3_counterexample :
    pyContains (search_all_collections apiC3 [⟨"a", "alpha", ""⟩, ⟨"b", "beta", ""⟩] "q")
        "alpha" = true
    ∧ pyContains (search_all_collections apiC3 [⟨"a", "alpha", ""⟩, ⟨"b", "beta", ""⟩] "q")
        "beta" = false := by
  refine ⟨by decide, by decide⟩

/-- Claim C3 (amended): `search_all_collections` queries, in load order,
exactly the first 5 loaded collections with a nonempty raw alias, with a
per-collection cap of 5 (its output depends on the API only at those
calls); with collections loaded, a run with zero accumulated records
returns the no-results message and otherwise renders the combined list;
the rendered list holds `min 10 |records|` records (one link line
each); and the output ends with the `Searched in:` trailer naming up to
3 of the collections that returned records, followed by a count of the
remaining record-returning collections when more than 3 did. -/
theorem C3_search_all_behavior :
    (∀ (api₁ api₂ : ApiModel) (collections : List Collection) (terms : String),
      (∀ c ∈ collections.take 5, c.alias_ ≠ "" →
        api₁.search c.alias_ terms 5 = api₂.search c.alias_ terms 5) →
      search_all_collections api₁ collections terms =
        search_all_collections api₂ collections terms)
    ∧ (∀ (api : ApiModel) (collections : List Collection) (terms : String),
        collections ≠ [] →
        ((search_all_accum api collections terms).1 = [] →
          search_all_collections api collections terms = noResultsAcrossMessage terms)
        ∧ ((search_all_accum api collections terms).1 ≠ [] →
          search_all_collections api collections terms =
            String.intercalate "\n"
              (search_all_lines terms (search_all_accum api collections terms).1
                (search_all_accum api collections terms).2)))
    ∧ (∀ (terms : String) (allRecords : List SearchRecord) (names : List String),
        (search_all_lines terms allRecords names).countP urlLineMarker =
          min 10 allRecords.length)
    ∧ (∀ (terms : String) (allRecords : List SearchRecord) (names : List String),
        (search_all_lines terms allRecords names).getLast? =
          some (if names.length > 3 then moreCollectionsLine names
            else searchedInLine names)) :=
  ⟨search_all_collections_ext,
   search_all_dispatch,
   search_all_lines_countP,
   search_all_lines_getLast⟩

/-- Witness for C3: the extensionality conjunct on one loaded
collection, against two API models that agree on the queried alias `a`
at cap 5 and differ everywhere else. -/
theorem C3_witness :
    search_all_collections apiC3 [⟨"a", "alpha", ""⟩] "q" =
      search_all_collections apiC3b [⟨"a", "alpha", ""⟩] "q" :=
  C3_search_all_behavior.1 apiC3 apiC3b [⟨"a", "alpha", ""⟩] "q" (by decide)

/-! Failure-policy lemmas for the dynamic formatters (claim C8). -/

theorem dynRecordLines_ok (i : Nat) (v : PyVal) (h : wellShapedRecord v = true) :
    ∃ out, dynRecordLines i v = Except.ok out := by
  cases v with
  | dict d =>
    simp only [wellShapedRecord] at h
    cases hc : dynGet d "collection" (PyVal.str "") with
    | str ca =>
      simp only [dynRecordLines, hc]
      exact ⟨_, rfl⟩
    | none => rw [hc] at h; simp at h
    | int n => rw [hc] at h; simp at h
    | list l => rw [hc] at h; simp at h
    | dict d2 => rw [hc] at h; simp at h
  | none => simp [wellShapedRecord] at h
  | str s => simp [wellShapedRecord] at h
  | int n => simp [wellShapedRecord] at h
  | list l => simp [wellShapedRecord] at h

theorem dynRecordsLines_ok :
    ∀ (rs : List PyVal) (i : Nat), (∀ v ∈ rs, wellShapedRecord v = true) →
      ∃ out, dynRecordsLines i rs = Except.ok out := by
  intro rs
  induction rs with
  | nil => intro i _; exact ⟨[], rfl⟩
  | cons v vs ih =>
    intro i hall
    obtain ⟨o1, h1⟩ := dynRecordLines_ok i v (hall v (List.mem_cons_self v vs))
    obtain ⟨o2, h2⟩ := ih (i + 1) (fun w hw => hall w (List.mem_cons_of_mem v hw))
    exact ⟨o1 ++ o2, by simp only [dynRecordsLines, h1, h2]⟩

theorem dynGet_int_any (pd : List (String × PyVal)) (t0 : Int)
    (h : dynGet pd "total" (PyVal.int 0) = PyVal.int t0) :
    ∀ d : Int, ∃ t, dynGet pd "total" (PyVal.int d) = PyVal.int t := by
  intro d
  unfold dynGet at h ⊢
  cases hf : pd.find? (fun kv => kv.1 = "total") with
  | some kv =>
    rw [hf] at h
    exact ⟨t0, h⟩
  | none => exact ⟨d, rfl⟩

/-- Claim C8 counterexample: a dict payload whose `records` value is the
integer 5 is truthy, so the formatter reaches the slice
`results['records'][:10]` and raises `TypeError` — a malformed field is
a hard failure, not a degradation. -/
theorem C8_counterexample :
    format_search_results_dyn [("records", PyVal.int 5)] "" =
      Except.error "TypeError" := rfl

/-- Claim C8 (amended): `format_item_details` returns a display string
for every dict payload (all operations it applies to field values are
total), and `format_search_results` returns a display string for every
well-shaped dict payload (records a list of dicts with string
`collection` values, pager a dict with an integer `total`); payloads
with fields of unexpected types make `format_search_results` raise. -/
theorem C8_formatters_failure_policy :
    (∀ (item : List (String × PyVal)) (alias0 : String),
      ∃ out, format_item_details_dyn item alias0 = Except.ok out)
    ∧ (∀ (results : List (String × PyVal)) (collectionName : String),
        wellShapedResults results = true →
        ∃ out, format_search_results_dyn results collectionName = Except.ok out) := by
  constructor
  · intro item alias0
    unfold format_item_details_dyn
    split
    · exact ⟨_, rfl⟩
    · exact ⟨_, rfl⟩
  · intro results collectionName hws
    simp only [wellShapedResults, Bool.and_eq_true] at hws
    obtain ⟨hrec, hpager⟩ := hws
    simp only [format_search_results_dyn]
    by_cases h1 : dynHasKey results "error" = true
    · rw [if_pos h1]
      exact ⟨_, rfl⟩
    · rw [if_neg h1]
      by_cases h2 : (!pyTruthy (dynGet results "records" PyVal.none)) = true
      · rw [if_pos h2]
        exact ⟨_, rfl⟩
      · rw [if_neg h2]
        cases hv : dynGet results "records" PyVal.none with
        | list rs =>
          rw [hv] at hrec
          simp only [] at hrec
          have hall : ∀ v ∈ rs.take 10, wellShapedRecord v = true := fun v hm =>
            (List.all_eq_true.mp hrec) v (List.mem_of_mem_take hm)
          obtain ⟨body, hbody⟩ := dynRecordsLines_ok (rs.take 10) 1 hall
          simp only [pySlice10, pyElems, hbody, pyLen]
          cases hp : dynGet results "pager" (PyVal.dict []) with
          | dict pd =>
            rw [hp] at hpager
            simp only [] at hpager
            cases ht : dynGet pd "total" (PyVal.int 0) with
            | int t0 =>
              obtain ⟨t, htt⟩ := dynGet_int_any pd t0 ht (((rs.take 10).length : Nat) : Int)
              simp only [htt]
              exact ⟨_, rfl⟩
            | none => rw [ht] at hpager; simp at hpager
            | str s => rw [ht] at hpager; simp at hpager
            | list l => rw [ht] at hpager; simp at hpager
            | dict d2 => rw [ht] at hpager; simp at hpager
          | none => rw [hp] at hpager; simp at hpager
          | str s => rw [hp] at hpager; simp at hpager
          | int n => rw [hp] at hpager; simp at hpager
          | list l => rw [hp] at hpager; simp at hpager
        | none =>
          rw [hv] at hrec h2
          simp only [] at hrec
          exact absurd hrec h2
        | str s =>
          rw [hv] at hrec h2
          simp only [] at hrec
          exact absurd hrec h2
        | int n =>
          rw [hv] at hrec h2
          simp only [] at hrec
          exact absurd hrec h2
        | dict d =>
          rw [hv] at hrec h2
          simp only [] at hrec
          exact absurd hrec h2

/-- Witness for C8: both conjuncts at concrete payloads — an item
payload with an integer date still formats, and a well-shaped search
payload formats. -/
theorem C8_witness :
    (∃ out, format_item_details_dyn [("date", PyVal.int 3)] "c" = Except.ok out)
    ∧ (∃ out, format_search_results_dyn
        [("records", PyVal.list [PyVal.dict [("title", PyVal.str "x")]])] "" =
          Except.ok out) :=
  ⟨C8_formatters_failure_policy.1 [("date", PyVal.int 3)] "c",
   C8_formatters_failure_policy.2
     [("records", PyVal.list [PyVal.dict [("title", PyVal.str "x")]])] "" (by decide)⟩

end AUCArchive
